import Mathlib

/-!
Shallow embedding of `run_supervise_command` from `src/launcher/supervisor.rs`
(vagga's supervise-mode launcher).

The Rust function is a single synchronous procedure that
  1. parses command-line arguments (external collaborator),
  2. builds each distinct container referenced by the plan,
  3. classifies children into host-networking / networked / bridge groups,
  4. checks that the gateway network namespace infrastructure exists,
  5. spawns host-net children, remembering (but not aborting on) spawn failures,
  6. if there are networked or bridge children: prepares the namespace
     directory, joins the gateway namespaces, creates a mount namespace,
     mounts a tmpfs, sets up the bridge namespace and port forwarding, then
     for each networked child creates its net+uts namespaces and spawns it
     (the bridge child is appended last), and finally re-attaches the
     supervisor to the bridge namespace,
  7. runs a signal loop (SIGINT / SIGTERM / SIGCHLD) until the first child
     exits, then a draining loop until the tracked child map is empty.

All external effects (argument parsing, container builds, spawn results,
namespace syscalls, the signal stream and the zombie lists each SIGCHLD
sweep yields) are supplied by an `Env`; the model records the externally
visible operations it performs in an ordered trace of `Action`s.
-/

set_option linter.unnecessarySeqFocus false

namespace Vagga

/-- Supervision modes of `config::command::SuperviseMode`.  Only
`stop_on_failure` is implemented by the source; any other mode panics at the
top of `run_supervise_command`. -/
inductive SuperviseMode where
  | stop_on_failure
  | restart_on_failure
deriving DecidableEq, Repr

/-- Network configuration of a networked child (`config::command::Networking`):
an ip, an optional hostname and a list of `(external_port, internal_port)`
pairs. -/
structure NetworkConfig where
  ip : String
  hostname : Option String
  ports : List (Nat × Nat)
deriving DecidableEq, Repr

/-- A child of the supervise command: either the single bridge process
(`ChildCommand::BridgeCommand`) or an ordinary command with an optional
network configuration.  Both carry the name of the container they run in
(`child.get_container()`). -/
inductive ChildCommand where
  | bridgeCmd (container : String)
  | cmd (container : String) (network : Option NetworkConfig)
deriving DecidableEq, Repr

/-- `child.get_container()`. -/
def ChildCommand.get_container : ChildCommand → String
  | .bridgeCmd c => c
  | .cmd c _ => c

/-- The part of `SuperviseInfo` that `run_supervise_command` reads: the
supervision mode, the optional description used for the argument parser, and
the ordered name → child mapping (iteration order of `sup.children.iter()`). -/
structure SuperviseInfo where
  mode : SuperviseMode
  description : Option String
  children : List (String × ChildCommand)

/-- Outcome of the argument-parsing block: `Ok(())`, `Err(0)` (help-style
early exit) or `Err(_)` (any other parse failure). -/
inductive ParseResult where
  | parsed
  | helpExit
  | parseError
deriving DecidableEq, Repr

/-- Exit status of a reaped child as delivered by `reap_zombies()`: normal
exit with a code, or termination by an uncaught signal. -/
inductive ExitStatus where
  | exited (code : Int)
  | signaled (sig : Nat)
deriving DecidableEq, Repr

/-- Modelled from the spec: `convert_status` lives in `src/process_util.rs`,
which is not among the provided sources.  The spec describes it as "normal
exit → that exit code; signaled → a code indicating signal termination"; the
conventional signal-derived code is `128 + signal`. -/
def convert_status : ExitStatus → Int
  | .exited code => code
  | .signaled sig => 128 + (sig : Int)

/-- One event delivered by the signal trap (`Trap::trap(&[SIGINT, SIGTERM,
SIGCHLD])`).  A `sigchld` event carries the list of `(pid, status)` pairs the
`reap_zombies()` sweep triggered by it yields, in order. -/
inductive Event where
  | sigint
  | sigterm
  | sigchld (zombies : List (Nat × ExitStatus))
deriving DecidableEq, Repr

/-- Externally visible operations of the run, recorded in program order. -/
inductive Action where
  | buildContainer (cont : String)
  | spawnAttempt (name : String) (pid : Option Nat)
  | createChildrenDir
  | joinGateway
  | unshareMount
  | mountTmpfs
  | setupBridge
  | startForwarding
  | setNs (path : String)
  | setupContainerNs (name ip hostname : String)
  | signalChild (pid : Nat) (sig : Nat)
  | reaped (pid : Nat)
deriving DecidableEq, Repr

/-- The environment supplying the results of every external effect the
function performs, plus the stream of trap events. -/
structure Env where
  parse : ParseResult
  buildOk : String → Bool
  netnsSetUp : Bool
  spawnPid : String → Option Nat
  nsdirExists : Bool
  createDirOk : Bool
  joinGatewayOk : Bool
  unshareMountOk : Bool
  mountTmpfsOk : Bool
  setupBridgeIp : Option String
  startForwardingOk : Bool
  setBridgeNsOk : String → Bool
  setupContainerOk : String → Bool
  setNetNsOk : String → Bool
  setUtsNsOk : String → Bool
  setBridgeNsFinalOk : Bool
  events : List Event

/-- Replace the parse outcome of an environment. -/
def Env.setParse (e : Env) (p : ParseResult) : Env :=
  ⟨p, e.buildOk, e.netnsSetUp, e.spawnPid, e.nsdirExists, e.createDirOk,
   e.joinGatewayOk, e.unshareMountOk, e.mountTmpfsOk, e.setupBridgeIp,
   e.startForwardingOk, e.setBridgeNsOk, e.setupContainerOk, e.setNetNsOk,
   e.setUtsNsOk, e.setBridgeNsFinalOk, e.events⟩

/-- The signal numbers used by the source. -/
def SIGINT : Nat := 2

/-- SIGTERM's number. -/
def SIGTERM : Nat := 15

/-- Classification of the plan computed by the loop at lines 59-79:
`netns` is `containers_in_netns` with the bridge names appended last,
`hostNet` is `containers_host_net`, and `forwards` / `ports` collect the
port-forward triples and external ports of the networked children. -/
structure Classified where
  netns : List String
  hostNet : List String
  forwards : List (Nat × String × Nat)
  ports : List Nat
deriving DecidableEq, Repr

/-- The classification loop body: returns `(containers_in_netns (without
bridges), bridges, containers_host_net, forwards, ports)`. -/
def classifyGo : List (String × ChildCommand) →
    List String × List String × List String × List (Nat × String × Nat) × List Nat
  | [] => ([], [], [], [], [])
  | (name, child) :: rest =>
    let r := classifyGo rest
    match child with
    | .bridgeCmd _ => (r.1, name :: r.2.1, r.2.2.1, r.2.2.2.1, r.2.2.2.2)
    | .cmd _ (some netw) =>
      (name :: r.1, r.2.1, r.2.2.1,
       (netw.ports.map (fun pr => (pr.1, netw.ip, pr.2))) ++ r.2.2.2.1,
       (netw.ports.map Prod.fst) ++ r.2.2.2.2)
    | .cmd _ none => (r.1, r.2.1, name :: r.2.2.1, r.2.2.2.1, r.2.2.2.2)

/-- Classify the children; `containers_in_netns.extend(bridges)` appends the
bridge names after the networked ones. -/
def classify (children : List (String × ChildCommand)) : Classified :=
  let r := classifyGo children
  ⟨r.1 ++ r.2.1, r.2.2.1, r.2.2.2.1, r.2.2.2.2⟩

/-- The container-building part of the classification loop: walk the
containers of the children in order, build each one not seen before, and
stop with an error message if a build fails.  Returns the trace of build
attempts and the error, if any. -/
def buildContainers (env : Env) : List String → List String →
    List Action × Option String
  | [], _ => ([], none)
  | c :: rest, seen =>
    if seen.contains c then buildContainers env rest seen
    else if env.buildOk c then
      let r := buildContainers env rest (c :: seen)
      (Action.buildContainer c :: r.1, r.2)
    else ([Action.buildContainer c], some ("Build of container " ++ c ++ " failed"))

/-- The error message of the gateway-namespace check at lines 80-83. -/
def netnsNotSetUpMsg : String :=
  "Network namespace is not set up. You need to run vagga _create_netns first"

/-- The tracked-children map (`HashMap<pid, (name, child)>`), modelled as an
association list keyed by pid. -/
def lookupChild (pid : Nat) (m : List (Nat × String)) : Option String :=
  (m.find? (fun e => decide (e.1 = pid))).map Prod.snd

/-- `children.insert(pid, ...)`: replace an existing entry with the same pid,
otherwise append. -/
def insertChild (pid : Nat) (name : String) (m : List (Nat × String)) :
    List (Nat × String) :=
  if m.any (fun e => decide (e.1 = pid)) then
    m.map (fun e => if e.1 = pid then (pid, name) else e)
  else m ++ [(pid, name)]

/-- `children.remove(&pid)` (the map part; the returned option is
`lookupChild`). -/
def removeChild (pid : Nat) (m : List (Nat × String)) : List (Nat × String) :=
  m.filter (fun e => decide (e.1 ≠ pid))

/-- Send SIGTERM to every tracked child (`for ... child.signal(SIGTERM).ok()`;
failures are ignored, so the action is recorded unconditionally). -/
def signalAll (m : List (Nat × String)) : List Action :=
  m.map (fun e => Action.signalChild e.1 SIGTERM)

/-- The host-net spawning loop (lines 90-113): attempt every host-net child
in order; a successful spawn inserts the child into the tracked map, a failed
one sets the error flag, and in both cases the loop continues. -/
def spawnHostGo (env : Env) : List String → List (Nat × String) → Bool →
    List Action × List (Nat × String) × Bool
  | [], m, er => ([], m, er)
  | n :: rest, m, er =>
    match env.spawnPid n with
    | some pid =>
      let r := spawnHostGo env rest (insertChild pid n m) er
      (Action.spawnAttempt n (some pid) :: r.1, r.2)
    | none =>
      let r := spawnHostGo env rest m true
      (Action.spawnAttempt n none :: r.1, r.2)

/-- Result of a fallible launch-phase step: the trace of actions performed,
the state reached, and whether the function returned an error (`try!`) or
panicked (`unwrap`). -/
inductive StepRes (σ : Type) where
  | ok (tr : List Action) (s : σ)
  | err (tr : List Action) (s : σ) (msg : String)
  | panicked (tr : List Action) (s : σ) (msg : String)
deriving DecidableEq, Repr

/-- Prepend earlier actions to a step result. -/
def StepRes.addTrace {σ : Type} (t : List Action) : StepRes σ → StepRes σ
  | .ok tr s => .ok (t ++ tr) s
  | .err tr s msg => .err (t ++ tr) s msg
  | .panicked tr s msg => .panicked (t ++ tr) s msg

/-- The trace of a step result. -/
def StepRes.traceOf {σ : Type} : StepRes σ → List Action
  | .ok tr _ => tr
  | .err tr _ _ => tr
  | .panicked tr _ _ => tr

/-- The state of a step result. -/
def StepRes.stateOf {σ : Type} : StepRes σ → σ
  | .ok _ s => s
  | .err _ s _ => s
  | .panicked _ s _ => s

/-- The per-networked-child loop (lines 134-181).  For each name, in order:
look the child up in the plan, attach to the bridge namespace, then for a
non-bridge child create its net+uts namespaces (named from its ip, hostname
defaulting to the child's name) and attach to them, and finally attempt the
spawn; a spawn failure sets the error flag but the loop continues, while any
namespace-step failure aborts the whole run (`try!`). -/
def spawnNetnsChildren (sup : SuperviseInfo) (env : Env) :
    List String → List (Nat × String) → Bool →
    StepRes (List (Nat × String) × Bool)
  | [], m, er => .ok [] (m, er)
  | name :: rest, m, er =>
    match sup.children.lookup name with
    | none => .panicked [] (m, er) "called Option::unwrap on a None value"
    | some child =>
      let t1 : List Action := [Action.setNs "bridge"]
      if !(env.setBridgeNsOk name) then .err t1 (m, er) "Error setting netns"
      else
        match child with
        | .bridgeCmd _ =>
          match env.spawnPid name with
          | some pid =>
            (spawnNetnsChildren sup env rest (insertChild pid name m) er).addTrace
              (t1 ++ [Action.spawnAttempt name (some pid)])
          | none =>
            (spawnNetnsChildren sup env rest m true).addTrace
              (t1 ++ [Action.spawnAttempt name none])
        | .cmd _ none => .panicked t1 (m, er) "called Option::unwrap on a None value"
        | .cmd _ (some netw) =>
          let t2 := t1 ++ [Action.setupContainerNs name netw.ip (netw.hostname.getD name)]
          if !(env.setupContainerOk name) then .err t2 (m, er) "setup_container failed"
          else
            let t3 := t2 ++ [Action.setNs ("net." ++ netw.ip)]
            if !(env.setNetNsOk name) then .err t3 (m, er) "Error setting netns"
            else
              let t4 := t3 ++ [Action.setNs ("uts." ++ netw.ip)]
              if !(env.setUtsNsOk name) then .err t4 (m, er) "Error setting netns"
              else
                match env.spawnPid name with
                | some pid =>
                  (spawnNetnsChildren sup env rest (insertChild pid name m) er).addTrace
                    (t4 ++ [Action.spawnAttempt name (some pid)])
                | none =>
                  (spawnNetnsChildren sup env rest m true).addTrace
                    (t4 ++ [Action.spawnAttempt name none])

/-- The namespaced part of the launch phase (lines 114-188), entered only
when there is at least one networked or bridge child: prepare the namespace
directory, join the gateway namespaces, create a mount namespace, mount the
tmpfs, set up the bridge and port forwarding, spawn the namespaced children,
and re-attach the supervisor to the bridge namespace one final time. -/
def netnsPhase (sup : SuperviseInfo) (env : Env) (cls : Classified)
    (m : List (Nat × String)) (er : Bool) : StepRes (List (Nat × String) × Bool) :=
  if cls.netns.length = 0 then .ok [] (m, er)
  else
    let t1 : List Action := if env.nsdirExists then [] else [Action.createChildrenDir]
    if !env.nsdirExists && !env.createDirOk then .err t1 (m, er) "Failed to create dir"
    else
      let t2 := t1 ++ [Action.joinGateway]
      if !env.joinGatewayOk then .err t2 (m, er) "join gateway failed"
      else
        let t3 := t2 ++ [Action.unshareMount]
        if !env.unshareMountOk then .err t3 (m, er) "Failed to create mount namespace"
        else
          let t4 := t3 ++ [Action.mountTmpfs]
          if !env.mountTmpfsOk then .err t4 (m, er) "mount tmpfs failed"
          else
            let t5 := t4 ++ [Action.setupBridge]
            match env.setupBridgeIp with
            | none => .err t5 (m, er) "setup_bridge failed"
            | some _ =>
              let t6 := t5 ++ [Action.startForwarding]
              if !env.startForwardingOk then .err t6 (m, er) "start_forwarding failed"
              else
                match spawnNetnsChildren sup env cls.netns m er with
                | .err tr s msg => .err (t6 ++ tr) s msg
                | .panicked tr s msg => .panicked (t6 ++ tr) s msg
                | .ok tr s =>
                  let t7 := t6 ++ tr ++ [Action.setNs "bridge"]
                  if !env.setBridgeNsFinalOk then .err t7 s "Error setting netns"
                  else .ok t7 s

/-- The whole launch phase (argument parsing excluded): build containers,
check the gateway namespace, spawn host-net children, then run the
namespaced phase.  The state is the tracked-children map plus the
spawn-error flag. -/
def launchPhase (sup : SuperviseInfo) (env : Env) :
    StepRes (List (Nat × String) × Bool) :=
  let cls := classify sup.children
  let b := buildContainers env (sup.children.map (fun c => c.2.get_container)) []
  match b.2 with
  | some msg => .err b.1 ([], false) msg
  | none =>
    if (cls.netns.length != 0) && !env.netnsSetUp then
      .err b.1 ([], false) netnsNotSetUpMsg
    else
      let h := spawnHostGo env cls.hostNet [] false
      (netnsPhase sup env cls h.2.1 h.2.2).addTrace (b.1 ++ h.1)

/-- The inner sweep of the SIGCHLD branch of the stopping loop, and of the
drain that follows the first tracked reap in the running loop: remove every
reported pid from the tracked map (removals of untracked pids are no-ops). -/
def drainAll : List (Nat × ExitStatus) → List (Nat × String) →
    List (Nat × String) × List Action
  | [], m => (m, [])
  | (pid, _) :: rest, m =>
    match lookupChild pid m with
    | some _ =>
      let r := drainAll rest (removeChild pid m)
      (r.1, Action.reaped pid :: r.2)
    | none => drainAll rest m

/-- The SIGCHLD branch of the running loop (lines 219-237): walk the sweep
until the first pid that is in the tracked map; remove it, convert its status
into the result code, drain the rest of the sweep, and report the code.  If
no pid of the sweep is tracked, nothing changes and no code is produced. -/
def reapRunning : List (Nat × ExitStatus) → List (Nat × String) →
    List (Nat × String) × Option Int × List Action
  | [], m => (m, none, [])
  | (pid, st) :: rest, m =>
    match lookupChild pid m with
    | some _ =>
      let r := drainAll rest (removeChild pid m)
      (r.1, some (convert_status st), Action.reaped pid :: r.2)
    | none => reapRunning rest m

/-- Outcome of a signal loop: either the loop broke out (with the tracked
map, the result code, the actions performed and the unconsumed events), or
the event stream was exhausted while the loop would still be blocking on the
trap (the run keeps waiting; no return happens). -/
inductive LoopRes where
  | finished (children : List (Nat × String)) (errcode : Int)
      (tr : List Action) (rest : List Event)
  | blocked (children : List (Nat × String)) (tr : List Action)
deriving DecidableEq, Repr

/-- Prepend earlier actions to a loop outcome. -/
def LoopRes.addTrace (t : List Action) : LoopRes → LoopRes
  | .finished m e tr rest => .finished m e (t ++ tr) rest
  | .blocked m tr => .blocked m (t ++ tr)

/-- The tracked map of a loop outcome. -/
def LoopRes.childrenOf : LoopRes → List (Nat × String)
  | .finished m _ _ _ => m
  | .blocked m _ => m

/-- The trace of a loop outcome. -/
def LoopRes.traceOf : LoopRes → List Action
  | .finished _ _ tr _ => tr
  | .blocked _ tr => tr

/-- The normal signal loop (lines 199-240), entered with a non-empty tracked
map when every planned spawn succeeded.  SIGINT: result code `128+SIGINT`,
break (no forwarding; Ctrl+C already reached the whole process group).
SIGTERM: forward SIGTERM to every tracked child, result code `128+SIGINT`
(the source uses SIGINT's number here too), break.  SIGCHLD: reap; if a
tracked child was reaped the loop breaks with its converted status. -/
def runningLoop : List Event → List (Nat × String) → Int → LoopRes
  | [], m, _ => .blocked m []
  | .sigint :: rest, m, _ => .finished m (128 + (SIGINT : Int)) [] rest
  | .sigterm :: rest, m, _ => .finished m (128 + (SIGINT : Int)) (signalAll m) rest
  | .sigchld zs :: rest, m, e =>
    match reapRunning zs m with
    | (m', some code, acts) => .finished m' code acts rest
    | (m', none, acts) =>
      if m'.length = 0 then .finished m' e acts rest
      else (runningLoop rest m' e).addTrace acts

/-- The stopping loop (lines 244-264), entered while tracked children remain:
SIGINT is ignored, SIGTERM is re-forwarded to every remaining child, SIGCHLD
reaps; the loop breaks once the tracked map is empty.  It does not touch the
result code (the `.finished` code field is unused by the caller). -/
def stoppingLoop : List Event → List (Nat × String) → LoopRes
  | [], m => .blocked m []
  | .sigint :: rest, m => stoppingLoop rest m
  | .sigterm :: rest, m => (stoppingLoop rest m).addTrace (signalAll m)
  | .sigchld zs :: rest, m =>
    match drainAll zs m with
    | (m', acts) =>
      if m'.length = 0 then .finished m' 0 acts rest
      else (stoppingLoop rest m').addTrace acts

/-- Final outcome of the function: `Ok(code)`, `Err(msg)`, a panic, or
"blocked" (the event stream ran out while a loop was still waiting on the
trap, i.e. the function has not returned). -/
inductive RunResult where
  | ok (code : Int)
  | err (msg : String)
  | panicked (msg : String)
  | blocked
deriving DecidableEq, Repr

/-- Result, trace and final tracked-children map of a run. -/
structure RunOut where
  result : RunResult
  trace : List Action
  children : List (Nat × String)
deriving DecidableEq, Repr

/-- Lines 190-266: the result-code computation and the two signal loops.
When a spawn failed (`error == true`) every tracked child is signalled with
SIGTERM and the stopping loop drains them; note that the source's
`let mut errcode = 127;` inside this branch declares a new binding that
shadows the outer `errcode`, which therefore stays `0` and is what
`Ok(errcode)` returns.  Otherwise the running loop produces the code and the
stopping loop drains whatever children remain. -/
def superviseLoop (env : Env) (m : List (Nat × String)) (error : Bool) : RunOut :=
  match error with
  | true =>
    let sig := signalAll m
    if m.length = 0 then ⟨.ok 0, sig, []⟩
    else
      match stoppingLoop env.events m with
      | .finished m' _ tr _ => ⟨.ok 0, sig ++ tr, m'⟩
      | .blocked m' tr => ⟨.blocked, sig ++ tr, m'⟩
  | false =>
    if m.length = 0 then ⟨.panicked "assertion failed: children.len() > 0", [], m⟩
    else
      match runningLoop env.events m 0 with
      | .finished m' code tr rest =>
        if m'.length = 0 then ⟨.ok code, tr, m'⟩
        else
          match stoppingLoop rest m' with
          | .finished m2 _ tr2 _ => ⟨.ok code, tr ++ tr2, m2⟩
          | .blocked m2 tr2 => ⟨.blocked, tr ++ tr2, m2⟩
      | .blocked m' tr => ⟨.blocked, tr, m'⟩

/-- The whole of `run_supervise_command`: panic on any mode other than
stop-on-failure, argument parsing with its two early exits (`Ok(0)` for the
help-style exit, `Ok(122)` for any other parse failure), then the launch
phase and the signal loops. -/
def run_supervise_command (sup : SuperviseInfo) (env : Env) : RunOut :=
  if sup.mode = SuperviseMode.stop_on_failure then
    match env.parse with
    | .helpExit => ⟨.ok 0, [], []⟩
    | .parseError => ⟨.ok 122, [], []⟩
    | .parsed =>
      match launchPhase sup env with
      | .err tr s msg => ⟨.err msg, tr, s.1⟩
      | .panicked tr s msg => ⟨.panicked msg, tr, s.1⟩
      | .ok tr s =>
        let r := superviseLoop env s.1 s.2
        ⟨r.result, tr ++ r.trace, r.children⟩
  else ⟨.panicked "Only stop-on-failure mode implemented", [], []⟩

/-- Pids inserted into the tracked map: the successfully spawned ones. -/
def insertedPids (tr : List Action) : List Nat :=
  tr.filterMap (fun a => match a with
    | .spawnAttempt _ (some pid) => some pid
    | _ => none)

/-- Pids removed from the tracked map by reaping. -/
def reapedPids (tr : List Action) : List Nat :=
  tr.filterMap (fun a => match a with
    | .reaped pid => some pid
    | _ => none)

/-- Names of the spawn attempts of a trace, in order. -/
def spawnAttemptNames (tr : List Action) : List String :=
  tr.filterMap (fun a => match a with
    | .spawnAttempt n _ => some n
    | _ => none)

/-- Is the action a SIGTERM (or any signal) sent to a child? -/
def isSignalChild : Action → Bool
  | .signalChild _ _ => true
  | _ => false

/-- Is the action a namespace creation for some networked child? -/
def isSetupNs : Action → Bool
  | .setupContainerNs _ _ _ => true
  | _ => false

/-- Is the action the namespace creation for child `n`? -/
def isSetupNsOf (n : String) : Action → Bool
  | .setupContainerNs nm _ _ => nm == n
  | _ => false

/-- Is the action a spawn attempt of child `n`? -/
def isSpawnOf (n : String) : Action → Bool
  | .spawnAttempt nm _ => nm == n
  | _ => false

/-- Is the action a spawn attempt of one of the given children? -/
def isSpawnOfAny (names : List String) : Action → Bool
  | .spawnAttempt nm _ => names.contains nm
  | _ => false

/-- `ordered p q tr`: every `q`-action of the trace occurs after every
`p`-action has already occurred, i.e. no `p`-action follows any `q`-action. -/
def ordered (p q : Action → Bool) : List Action → Bool
  | [] => true
  | a :: rest => if q a then rest.all (fun b => !(p b)) else ordered p q rest

/-- `coveredBy p q tr seen`: every `q`-action of the trace is preceded by a
strictly earlier `p`-action (`seen` records whether one was already seen). -/
def coveredBy (p q : Action → Bool) : List Action → Bool → Bool
  | [], _ => true
  | a :: rest, seen => ((!(q a)) || seen) && coveredBy p q rest (seen || p a)

/-- The claim of C4, as stated: all per-child namespace creations precede
every spawn of a namespaced child. -/
def allSetupsBeforeNetnsSpawns (netns : List String) (tr : List Action) : Bool :=
  ordered isSetupNs (isSpawnOfAny netns) tr

/-- Multiplicity of a pid among the keys of the tracked map. -/
def keysCount (p : Nat) (m : List (Nat × String)) : Nat :=
  (m.map Prod.fst).count p

/-- Invariant of the spawning phases, relative to the starting map `m` and
the list `names` of children still to process: the produced map keeps its
keys unique and extends `m` by exactly the successfully spawned pids, which
are the spawn results of a subsequence of `names`; nothing is reaped and no
child is signalled. -/
def NetnsSpec (env : Env) (names : List String) (m : List (Nat × String))
    (tr : List Action) (st : List (Nat × String) × Bool) : Prop :=
  (st.1.map Prod.fst).Nodup
  ∧ (∀ q, keysCount q st.1 = keysCount q m + (insertedPids tr).count q)
  ∧ (∃ ns' : List String, List.Sublist ns' names ∧ insertedPids tr = List.filterMap env.spawnPid ns')
  ∧ reapedPids tr = []
  ∧ ∀ a ∈ tr, isSignalChild a = false

/-- Concrete plan for the launch-failure scenario: two host-net children. -/
def planHostAB : SuperviseInfo :=
  ⟨.stop_on_failure, none, [("a", .cmd "c" none), ("b", .cmd "c" none)]⟩

/-- Environment where child `a` fails to spawn, `b` spawns as pid 11 and
exits with code 0 (scenario C of the spec). -/
def envSpawnFail : Env :=
  ⟨.parsed, fun _ => true, false,
   fun n => if n = "b" then some 11 else none,
   true, true, true, true, true, some "ip", true,
   fun _ => true, fun _ => true, fun _ => true, fun _ => true, true,
   [.sigchld [(11, .exited 0)]]⟩

/-- Environment where both children spawn (pids 10 and 11); `a` exits first
with code 0, then `b` exits (scenario A of the spec). -/
def envFirstExit : Env :=
  ⟨.parsed, fun _ => true, false,
   fun n => if n = "a" then some 10 else if n = "b" then some 11 else none,
   true, true, true, true, true, some "ip", true,
   fun _ => true, fun _ => true, fun _ => true, fun _ => true, true,
   [.sigchld [(10, .exited 0)], .sigchld [(11, .exited 0)]]⟩

/-- Concrete plan with two networked children (ips "2" and "3"). -/
def planNetAB : SuperviseInfo :=
  ⟨.stop_on_failure, none,
   [("a", .cmd "c" (some ⟨"2", none, [(8080, 80)]⟩)),
    ("b", .cmd "c" (some ⟨"3", none, []⟩))]⟩

/-- Environment where the network setup exists, every namespace step
succeeds and both networked children spawn (pids 10 and 11). -/
def envNetOk : Env :=
  ⟨.parsed, fun _ => true, true,
   fun n => if n = "a" then some 10 else if n = "b" then some 11 else none,
   true, true, true, true, true, some "ip", true,
   fun _ => true, fun _ => true, fun _ => true, fun _ => true, true,
   [.sigchld [(10, .exited 0)], .sigchld [(11, .exited 0)]]⟩

/-- Environment like `envNetOk` except that mounting the tmpfs for the
namespace files fails, after the host-net phase. -/
def envTmpfsFail : Env :=
  ⟨.parsed, fun _ => true, true,
   fun n => if n = "a" then some 10 else if n = "b" then some 11 else none,
   true, true, true, true, false, some "ip", true,
   fun _ => true, fun _ => true, fun _ => true, fun _ => true, true,
   [.sigchld [(10, .exited 0)], .sigchld [(11, .exited 0)]]⟩

/-- Plan mixing one host-net child `h` with one networked child `a`. -/
def planMixed : SuperviseInfo :=
  ⟨.stop_on_failure, none,
   [("a", .cmd "c" (some ⟨"2", none, []⟩)), ("h", .cmd "c" none)]⟩

/-- Environment for `planMixed` where the gateway network namespace has not
been set up (scenario B of the spec). -/
def envNoNetns : Env :=
  ⟨.parsed, fun _ => true, false,
   fun n => if n = "h" then some 7 else if n = "a" then some 8 else none,
   true, true, true, true, true, some "ip", true,
   fun _ => true, fun _ => true, fun _ => true, fun _ => true, true,
   [.sigchld [(7, .exited 0)]]⟩

/-- Environment for `planMixed` where everything up to the tmpfs mount
works, the host child spawns as pid 7, and then the tmpfs mount fails. -/
def envMixedTmpfsFail : Env :=
  ⟨.parsed, fun _ => true, true,
   fun n => if n = "h" then some 7 else if n = "a" then some 8 else none,
   true, true, true, true, false, some "ip", true,
   fun _ => true, fun _ => true, fun _ => true, fun _ => true, true,
   [.sigchld [(7, .exited 0)]]⟩

/- ------------------------------------------------------------------ -/
/- Theorems                                                            -/
/- ------------------------------------------------------------------ -/

/-- Claim C1 (code bug): on the launch-failure path the source signals and
drains the children that did start, but the `let mut errcode = 127;` inside
the `if error` branch shadows the outer `errcode` binding, so the function
returns `Ok(0)`, not the reserved launch-failure code 127 the spec states.
At the failing input (child `a` fails to spawn, `b` spawns and is SIGTERMed
and reaped) the run returns code 0. -/
theorem c1_launch_failure_returns_zero :
    run_supervise_command planHostAB envSpawnFail =
      ⟨.ok 0,
       [Action.buildContainer "c", Action.spawnAttempt "a" none,
        Action.spawnAttempt "b" (some 11), Action.signalChild 11 SIGTERM,
        Action.reaped 11], []⟩
    ∧ (run_supervise_command planHostAB envSpawnFail).result ≠ RunResult.ok 127 := by
  decide

/-- Claim C2 (code bug): after the first child exits, the source never sends
a terminate signal to the other still-tracked children — the SIGCHLD branch
of the running loop breaks to the stopping loop, which only waits (it
forwards SIGTERM only if the supervisor itself receives one).  At the
concrete input (both children running, `a` exits first) the run completes
to the drained state with no `signalChild` action in the whole trace. -/
theorem c2_no_terminate_after_first_exit :
    run_supervise_command planHostAB envFirstExit =
      ⟨.ok 0,
       [Action.buildContainer "c", Action.spawnAttempt "a" (some 10),
        Action.spawnAttempt "b" (some 11), Action.reaped 10,
        Action.reaped 11], []⟩
    ∧ (run_supervise_command planHostAB envFirstExit).trace.all
        (fun a => !(isSignalChild a)) = true := by
  decide

/-- Claim C4, counterexample: with two networked children the namespaces of
the second child are created only after the first child has already been
spawned, so topology construction does not complete fully before the first
namespaced spawn. -/
theorem c4_counterexample :
    allSetupsBeforeNetnsSpawns (classify planNetAB.children).netns
      (run_supervise_command planNetAB envNetOk).trace = false := by
  decide

/-- Claim C8: in the running state an interrupt event yields result code
`128 + SIGINT` with no signal forwarded to any child, and a terminate event
forwards SIGTERM to every currently-tracked child and yields the same
`128 + SIGINT` result code (the source reuses SIGINT's number); that code
is 130. -/
theorem c8_interrupt_and_terminate (m : List (Nat × String)) (e : Int)
    (rest : List Event) :
    runningLoop (Event.sigint :: rest) m e =
      LoopRes.finished m (128 + (SIGINT : Int)) [] rest
    ∧ runningLoop (Event.sigterm :: rest) m e =
        LoopRes.finished m (128 + (SIGINT : Int))
          (m.map (fun c => Action.signalChild c.1 SIGTERM)) rest
    ∧ (128 + (SIGINT : Int)) = 130 :=
  ⟨rfl, rfl, rfl⟩

/-- Claim C10: argument parsing happens before any container build or spawn;
a help-style early exit returns `Ok(0)` and any other parse failure returns
`Ok(122)`, in both cases with an empty trace (no build, no spawn, no
namespace operation) and no tracked child. -/
theorem c10_parse_early_exits (desc : Option String)
    (children : List (String × ChildCommand)) (env : Env) :
    run_supervise_command ⟨.stop_on_failure, desc, children⟩
        (env.setParse .helpExit) = ⟨.ok 0, [], []⟩
    ∧ run_supervise_command ⟨.stop_on_failure, desc, children⟩
        (env.setParse .parseError) = ⟨.ok 122, [], []⟩ :=
  ⟨rfl, rfl⟩

/-- Skipping untracked pids at the head of a SIGCHLD sweep does not change
the reap outcome. -/
theorem reapRunning_untracked (m : List (Nat × String))
    (pre zs : List (Nat × ExitStatus))
    (hpre : ∀ q ∈ pre, lookupChild q.1 m = none) :
    reapRunning (pre ++ zs) m = reapRunning zs m := by
  induction pre with
  | nil => rfl
  | cons q rest ih =>
    have hq : lookupChild q.1 m = none := hpre q (List.mem_cons_self q rest)
    cases q with
    | mk pid st =>
      simp only [List.cons_append, reapRunning, hq]
      exact ih fun r hr => hpre r (List.mem_cons_of_mem _ hr)

/-- Claim C7: on a child-death event in the running state, the sweep is
walked until the first tracked pid; that child is removed and its converted
exit status becomes the result code, the remaining already-exited processes
of the same sweep are drained without touching the result code, and the
loop breaks (transitioning to the stopping phase) with no further event
consumed. -/
theorem c7_first_tracked_reap_decides_code (m : List (Nat × String)) (e : Int)
    (pre : List (Nat × ExitStatus)) (pst : Nat × ExitStatus)
    (post : List (Nat × ExitStatus)) (rest : List Event)
    (hpre : ∀ q ∈ pre, lookupChild q.1 m = none)
    (hp : (lookupChild pst.1 m).isSome = true) :
    runningLoop (Event.sigchld (pre ++ pst :: post) :: rest) m e =
      LoopRes.finished (drainAll post (removeChild pst.1 m)).1
        (convert_status pst.2)
        (Action.reaped pst.1 :: (drainAll post (removeChild pst.1 m)).2)
        rest := by
  obtain ⟨nm, hnm⟩ := Option.isSome_iff_exists.mp hp
  have h1 : reapRunning (pre ++ pst :: post) m = reapRunning (pst :: post) m :=
    reapRunning_untracked m pre (pst :: post) hpre
  have h2 : reapRunning (pst :: post) m =
      ((drainAll post (removeChild pst.1 m)).1, some (convert_status pst.2),
       Action.reaped pst.1 :: (drainAll post (removeChild pst.1 m)).2) := by
    cases pst with
    | mk pid st => simp [reapRunning, hnm]
  simp [runningLoop, h1, h2]

/-- Witness for C7 at a concrete input: children 5 and 6 tracked, the sweep
reports an untracked pid 9 first, then child 5 killed by signal 9, then
child 6; the result code is `convert_status` of the signal death of 5. -/
theorem c7_witness :
    runningLoop
        [Event.sigchld [(9, ExitStatus.exited 1), (5, ExitStatus.signaled 9),
                        (6, ExitStatus.exited 0)]]
        [(5, "a"), (6, "b")] 0 =
      LoopRes.finished
        (drainAll [(6, ExitStatus.exited 0)] (removeChild 5 [(5, "a"), (6, "b")])).1
        (convert_status (ExitStatus.signaled 9))
        (Action.reaped 5 ::
          (drainAll [(6, ExitStatus.exited 0)] (removeChild 5 [(5, "a"), (6, "b")])).2)
        [] :=
  c7_first_tracked_reap_decides_code [(5, "a"), (6, "b")] 0
    [(9, ExitStatus.exited 1)] (5, ExitStatus.signaled 9)
    [(6, ExitStatus.exited 0)] [] (by decide) (by decide)

/-- A pid is absent from the tracked map iff it is not among its keys. -/
theorem lookupChild_eq_none_iff (pid : Nat) (m : List (Nat × String)) :
    lookupChild pid m = none ↔ pid ∉ m.map Prod.fst := by
  simp only [lookupChild, Option.map_eq_none', List.find?_eq_none,
    decide_eq_true_eq, List.mem_map]
  constructor
  · intro h hx
    obtain ⟨e, he, hf⟩ := hx
    exact h e he hf
  · intro h e he hf
    exact h ⟨e, he, hf⟩

/-- Unfolding `lookupChild` over a cons cell. -/
theorem lookupChild_cons (pid : Nat) (e : Nat × String) (t : List (Nat × String)) :
    lookupChild pid (e :: t) = if e.1 = pid then some e.2 else lookupChild pid t := by
  by_cases he : e.1 = pid
  · simp [lookupChild, List.find?_cons_of_pos, he]
  · simp [lookupChild, List.find?_cons_of_neg, he]

/-- Unfolding `removeChild` over a cons cell. -/
theorem removeChild_cons (pid : Nat) (e : Nat × String) (t : List (Nat × String)) :
    removeChild pid (e :: t) =
      if e.1 = pid then removeChild pid t else e :: removeChild pid t := by
  by_cases he : e.1 = pid <;> simp [removeChild, List.filter_cons, he]

/-- `removeChild` keeps the keys without duplicates. -/
theorem removeChild_nodup (pid : Nat) (m : List (Nat × String))
    (hnd : (m.map Prod.fst).Nodup) : ((removeChild pid m).map Prod.fst).Nodup :=
  List.Nodup.sublist (List.Sublist.map Prod.fst (List.filter_sublist m)) hnd

/-- Removing an absent pid is a no-op. -/
theorem removeChild_of_not_mem (pid : Nat) (m : List (Nat × String))
    (h : pid ∉ m.map Prod.fst) : removeChild pid m = m := by
  apply List.filter_eq_self.mpr
  intro e he
  simp only [decide_eq_true_eq]
  intro hf
  exact h (List.mem_map.mpr ⟨e, he, hf⟩)

/-- Counting keys through a cons cell. -/
theorem keysCount_cons (q : Nat) (e : Nat × String) (t : List (Nat × String)) :
    keysCount q (e :: t) = keysCount q t + (if q = e.1 then 1 else 0) := by
  simp only [keysCount, List.map_cons, List.count_cons, beq_iff_eq]
  rcases eq_or_ne q e.1 with h | h
  · simp [h]
  · simp [h, Ne.symm h]

/-- Removing a present pid removes exactly one occurrence of it from the
keys (the map keys are unique). -/
theorem removeChild_count (pid : Nat) :
    ∀ (m : List (Nat × String)), (m.map Prod.fst).Nodup →
    ∀ nm, lookupChild pid m = some nm → ∀ q,
    keysCount q m = keysCount q (removeChild pid m) + (if q = pid then 1 else 0) := by
  intro m
  induction m with
  | nil => intro _ nm h; simp [lookupChild] at h
  | cons e t ih =>
    intro hnd nm h q
    rw [lookupChild_cons] at h
    rw [removeChild_cons, keysCount_cons]
    have hnd' := hnd
    rw [List.map_cons, List.nodup_cons] at hnd'
    by_cases he : e.1 = pid
    · rw [if_pos he] at h ⊢
      have hnotin : pid ∉ t.map Prod.fst := he ▸ hnd'.1
      rw [removeChild_of_not_mem pid t hnotin, he]
    · rw [if_neg he] at h ⊢
      rw [keysCount_cons, ih hnd'.2 nm h q]
      ring

/-- `signalAll` produces no reap records. -/
theorem reapedPids_signalAll (m : List (Nat × String)) :
    reapedPids (signalAll m) = [] := by
  induction m with
  | nil => rfl
  | cons e t ih => simp [signalAll, reapedPids, List.filterMap_cons]

/-- `signalAll` produces no insertions. -/
theorem insertedPids_signalAll (m : List (Nat × String)) :
    insertedPids (signalAll m) = [] := by
  induction m with
  | nil => rfl
  | cons e t ih => simp [signalAll, insertedPids, List.filterMap_cons]

/-- `reapedPids` distributes over trace concatenation. -/
theorem reapedPids_append (xs ys : List Action) :
    reapedPids (xs ++ ys) = reapedPids xs ++ reapedPids ys :=
  List.filterMap_append xs ys _

/-- `insertedPids` distributes over trace concatenation. -/
theorem insertedPids_append (xs ys : List Action) :
    insertedPids (xs ++ ys) = insertedPids xs ++ insertedPids ys :=
  List.filterMap_append xs ys _

/-- `spawnAttemptNames` distributes over trace concatenation. -/
theorem spawnAttemptNames_append (xs ys : List Action) :
    spawnAttemptNames (xs ++ ys) = spawnAttemptNames xs ++ spawnAttemptNames ys :=
  List.filterMap_append xs ys _

/-- The drain sweep keeps the keys unique, moves each removed key into the
reap records exactly once, inserts nothing and signals nobody. -/
theorem drainAll_spec :
    ∀ (zs : List (Nat × ExitStatus)) (m : List (Nat × String)),
    (m.map Prod.fst).Nodup →
    ((drainAll zs m).1.map Prod.fst).Nodup
    ∧ (∀ q, keysCount q m =
        keysCount q (drainAll zs m).1 + (reapedPids (drainAll zs m).2).count q)
    ∧ insertedPids (drainAll zs m).2 = []
    ∧ ∀ a ∈ (drainAll zs m).2, isSignalChild a = false := by
  intro zs
  induction zs with
  | nil =>
    intro m hnd
    refine ⟨hnd, fun q => ?_, rfl, by simp [drainAll]⟩
    simp [drainAll, reapedPids]
  | cons z rest ih =>
    intro m hnd
    obtain ⟨pid, st⟩ := z
    cases hl : lookupChild pid m with
    | some nm =>
      obtain ⟨ha, hb, hc, hd⟩ := ih (removeChild pid m) (removeChild_nodup pid m hnd)
      simp only [drainAll, hl]
      refine ⟨ha, fun q => ?_, ?_, ?_⟩
      · rw [removeChild_count pid m hnd nm hl q, hb q]
        simp only [reapedPids, List.filterMap_cons, List.count_cons, beq_iff_eq]
        rcases eq_or_ne q pid with h | h
        · simp [h]
          ring
        · simp [h, Ne.symm h]
      · simpa [insertedPids, List.filterMap_cons] using hc
      · intro a ha'
        rcases List.mem_cons.mp ha' with h | h
        · rw [h]; rfl
        · exact hd a h
    | none =>
      simp only [drainAll, hl]
      exact ih m hnd

/-- The running-loop reap sweep keeps the keys unique, moves every removed
key into the reap records exactly once, inserts nothing and signals
nobody. -/
theorem reapRunning_spec :
    ∀ (zs : List (Nat × ExitStatus)) (m : List (Nat × String)),
    (m.map Prod.fst).Nodup →
    ((reapRunning zs m).1.map Prod.fst).Nodup
    ∧ (∀ q, keysCount q m =
        keysCount q (reapRunning zs m).1 + (reapedPids (reapRunning zs m).2.2).count q)
    ∧ insertedPids (reapRunning zs m).2.2 = []
    ∧ ∀ a ∈ (reapRunning zs m).2.2, isSignalChild a = false := by
  intro zs
  induction zs with
  | nil =>
    intro m hnd
    refine ⟨hnd, fun q => ?_, rfl, by simp [reapRunning]⟩
    simp [reapRunning, reapedPids]
  | cons z rest ih =>
    intro m hnd
    obtain ⟨pid, st⟩ := z
    cases hl : lookupChild pid m with
    | some nm =>
      obtain ⟨ha, hb, hc, hd⟩ := drainAll_spec rest (removeChild pid m)
        (removeChild_nodup pid m hnd)
      simp only [reapRunning, hl]
      refine ⟨ha, fun q => ?_, ?_, ?_⟩
      · rw [removeChild_count pid m hnd nm hl q, hb q]
        simp only [reapedPids, List.filterMap_cons, List.count_cons, beq_iff_eq]
        rcases eq_or_ne q pid with h | h
        · simp [h]
          ring
        · simp [h, Ne.symm h]
      · simpa [insertedPids, List.filterMap_cons] using hc
      · intro a ha'
        rcases List.mem_cons.mp ha' with h | h
        · rw [h]; rfl
        · exact hd a h
    | none =>
      simp only [reapRunning, hl]
      exact ih m hnd

/-- `addTrace` does not change the children of a loop outcome. -/
theorem childrenOf_addTrace (t : List Action) (r : LoopRes) :
    (r.addTrace t).childrenOf = r.childrenOf := by
  cases r <;> rfl

/-- `addTrace` prepends to the trace of a loop outcome. -/
theorem traceOf_addTrace (t : List Action) (r : LoopRes) :
    (r.addTrace t).traceOf = t ++ r.traceOf := by
  cases r <;> rfl

/-- Inverting `addTrace` on a finished outcome. -/
theorem addTrace_eq_finished {t : List Action} {r : LoopRes}
    {m : List (Nat × String)} {c : Int} {tr : List Action} {rest : List Event}
    (h : r.addTrace t = .finished m c tr rest) :
    ∃ tr0, r = .finished m c tr0 rest ∧ tr = t ++ tr0 := by
  cases r with
  | finished m0 c0 tr0 rest0 =>
    simp only [LoopRes.addTrace, LoopRes.finished.injEq] at h
    exact ⟨tr0, by rw [h.1, h.2.1, h.2.2.2], h.2.2.1.symm⟩
  | blocked m0 tr0 => simp [LoopRes.addTrace] at h

/-- The running loop keeps the keys unique, moves every removed key into
the reap records exactly once and inserts nothing. -/
theorem runningLoop_spec :
    ∀ (evs : List Event) (m : List (Nat × String)) (e : Int),
    (m.map Prod.fst).Nodup →
    (((runningLoop evs m e).childrenOf).map Prod.fst).Nodup
    ∧ (∀ q, keysCount q m =
        keysCount q (runningLoop evs m e).childrenOf
          + (reapedPids (runningLoop evs m e).traceOf).count q)
    ∧ insertedPids (runningLoop evs m e).traceOf = [] := by
  intro evs
  induction evs with
  | nil =>
    intro m e hnd
    refine ⟨hnd, fun q => ?_, rfl⟩
    simp [runningLoop, LoopRes.childrenOf, LoopRes.traceOf, reapedPids]
  | cons ev rest ih =>
    intro m e hnd
    cases ev with
    | sigint =>
      refine ⟨hnd, fun q => ?_, rfl⟩
      simp [runningLoop, LoopRes.childrenOf, LoopRes.traceOf, reapedPids]
    | sigterm =>
      refine ⟨hnd, fun q => ?_, ?_⟩
      · simp [runningLoop, LoopRes.childrenOf, LoopRes.traceOf, reapedPids_signalAll]
      · simp [runningLoop, LoopRes.traceOf, insertedPids_signalAll]
    | sigchld zs =>
      obtain ⟨ha, hb, hc, _⟩ := reapRunning_spec zs m hnd
      rcases hr : reapRunning zs m with ⟨m', oc, acts⟩
      rw [hr] at ha hb hc
      cases oc with
      | some code =>
        simp only [runningLoop, hr]
        exact ⟨ha, hb, hc⟩
      | none =>
        by_cases hlen : m'.length = 0
        · simp only [runningLoop, hr, if_pos hlen]
          exact ⟨ha, hb, hc⟩
        · simp only [runningLoop, hr, if_neg hlen]
          obtain ⟨ia, ib, ic⟩ := ih m' e ha
          rw [childrenOf_addTrace, traceOf_addTrace]
          refine ⟨ia, fun q => ?_, ?_⟩
          · rw [reapedPids_append, List.count_append, hb q, ib q]
            ring
          · rw [insertedPids_append, hc, ic]
            rfl

/-- The stopping loop keeps the keys unique, moves every removed key into
the reap records exactly once and inserts nothing. -/
theorem stoppingLoop_spec :
    ∀ (evs : List Event) (m : List (Nat × String)),
    (m.map Prod.fst).Nodup →
    (((stoppingLoop evs m).childrenOf).map Prod.fst).Nodup
    ∧ (∀ q, keysCount q m =
        keysCount q (stoppingLoop evs m).childrenOf
          + (reapedPids (stoppingLoop evs m).traceOf).count q)
    ∧ insertedPids (stoppingLoop evs m).traceOf = [] := by
  intro evs
  induction evs with
  | nil =>
    intro m hnd
    refine ⟨hnd, fun q => ?_, rfl⟩
    simp [stoppingLoop, LoopRes.childrenOf, LoopRes.traceOf, reapedPids]
  | cons ev rest ih =>
    intro m hnd
    cases ev with
    | sigint =>
      simpa [stoppingLoop] using ih m hnd
    | sigterm =>
      obtain ⟨ia, ib, ic⟩ := ih m hnd
      rw [stoppingLoop, childrenOf_addTrace, traceOf_addTrace] at *
      refine ⟨ia, fun q => ?_, ?_⟩
      · rw [reapedPids_append, List.count_append, reapedPids_signalAll, ib q]
        simp
      · rw [insertedPids_append, insertedPids_signalAll, ic]
        rfl
    | sigchld zs =>
      obtain ⟨ha, hb, hc, _⟩ := drainAll_spec zs m hnd
      rcases hd : drainAll zs m with ⟨m', acts⟩
      rw [hd] at ha hb hc
      by_cases hlen : m'.length = 0
      · simp only [stoppingLoop, hd, if_pos hlen]
        exact ⟨ha, hb, hc⟩
      · simp only [stoppingLoop, hd, if_neg hlen]
        obtain ⟨ia, ib, ic⟩ := ih m' ha
        rw [childrenOf_addTrace, traceOf_addTrace]
        refine ⟨ia, fun q => ?_, ?_⟩
        · rw [reapedPids_append, List.count_append, hb q, ib q]
          ring
        · rw [insertedPids_append, hc, ic]
          rfl

/-- The stopping loop only breaks once the tracked map is empty. -/
theorem stoppingLoop_finished_nil :
    ∀ (evs : List Event) (m m' : List (Nat × String)) (c : Int)
      (tr : List Action) (rest : List Event),
    stoppingLoop evs m = .finished m' c tr rest → m' = [] := by
  intro evs
  induction evs with
  | nil => intro m m' c tr rest h; simp [stoppingLoop] at h
  | cons ev evrest ih =>
    intro m m' c tr rest h
    cases ev with
    | sigint => exact ih m m' c tr rest h
    | sigterm =>
      obtain ⟨tr0, h0, _⟩ := addTrace_eq_finished h
      exact ih m m' c tr0 rest h0
    | sigchld zs =>
      rcases hd : drainAll zs m with ⟨md, acts⟩
      simp only [stoppingLoop, hd] at h
      by_cases hlen : md.length = 0
      · rw [if_pos hlen] at h
        have := (LoopRes.finished.injEq _ _ _ _ _ _ _ _).mp h
        rw [← this.1]
        exact List.length_eq_zero.mp hlen
      · rw [if_neg hlen] at h
        obtain ⟨tr0, h0, _⟩ := addTrace_eq_finished h
        exact ih md m' c tr0 rest h0

/-- Counting keys of the empty map. -/
theorem keysCount_nil (q : Nat) : keysCount q [] = 0 := rfl

/-- The signal loops after launch: they insert nothing, and whenever they
produce an `Ok` result the tracked map has been fully drained, each of its
keys having been moved into the reap records exactly once. -/
theorem superviseLoop_spec (env : Env) (m : List (Nat × String)) (er : Bool)
    (hnd : (m.map Prod.fst).Nodup) :
    insertedPids (superviseLoop env m er).trace = []
    ∧ ∀ c, (superviseLoop env m er).result = RunResult.ok c →
        (superviseLoop env m er).children = []
        ∧ ∀ q, keysCount q m = (reapedPids (superviseLoop env m er).trace).count q := by
  cases er with
  | true =>
    by_cases hlen : m.length = 0
    · have hm : m = [] := List.length_eq_zero.mp hlen
      subst hm
      exact ⟨by simp [superviseLoop, signalAll, insertedPids],
        fun c _ => ⟨by simp [superviseLoop], fun q => by
          simp [superviseLoop, signalAll, insertedPids, reapedPids, keysCount]⟩⟩
    · cases hs : stoppingLoop env.events m with
      | finished m' c' tr' rest' =>
        have hspec := stoppingLoop_spec env.events m hnd
        rw [hs] at hspec
        simp only [LoopRes.childrenOf, LoopRes.traceOf] at hspec
        have hm' : m' = [] := stoppingLoop_finished_nil env.events m m' c' tr' rest' hs
        simp only [superviseLoop, if_neg hlen, hs]
        refine ⟨?_, fun c _ => ⟨hm', fun q => ?_⟩⟩
        · rw [insertedPids_append, insertedPids_signalAll, hspec.2.2]
          rfl
        · have h1 := hspec.2.1 q
          rw [hm', keysCount_nil, Nat.zero_add] at h1
          rw [reapedPids_append, reapedPids_signalAll, List.count_append]
          simpa using h1
      | blocked m' tr' =>
        have hspec := stoppingLoop_spec env.events m hnd
        rw [hs] at hspec
        simp only [LoopRes.childrenOf, LoopRes.traceOf] at hspec
        simp only [superviseLoop, if_neg hlen, hs]
        refine ⟨?_, fun c hc => absurd hc (by simp)⟩
        rw [insertedPids_append, insertedPids_signalAll, hspec.2.2]
        rfl
  | false =>
    by_cases hlen : m.length = 0
    · simp only [superviseLoop, if_pos hlen]
      exact ⟨rfl, fun c hc => absurd hc (by simp)⟩
    · cases hr : runningLoop env.events m 0 with
      | finished m' code tr' rest' =>
        have hrs := runningLoop_spec env.events m 0 hnd
        rw [hr] at hrs
        simp only [LoopRes.childrenOf, LoopRes.traceOf] at hrs
        by_cases hlen' : m'.length = 0
        · have hm' : m' = [] := List.length_eq_zero.mp hlen'
          simp only [superviseLoop, if_neg hlen, hr, if_pos hlen']
          refine ⟨hrs.2.2, fun c _ => ⟨hm', fun q => ?_⟩⟩
          have h1 := hrs.2.1 q
          rw [hm', keysCount_nil, Nat.zero_add] at h1
          exact h1
        · cases hs : stoppingLoop rest' m' with
          | finished m2 c2 tr2 rest2 =>
            have hss := stoppingLoop_spec rest' m' hrs.1
            rw [hs] at hss
            simp only [LoopRes.childrenOf, LoopRes.traceOf] at hss
            have hm2 : m2 = [] := stoppingLoop_finished_nil rest' m' m2 c2 tr2 rest2 hs
            simp only [superviseLoop, if_neg hlen, hr, if_neg hlen', hs]
            refine ⟨?_, fun c _ => ⟨hm2, fun q => ?_⟩⟩
            · rw [insertedPids_append, hrs.2.2, hss.2.2]
              rfl
            · have h1 := hrs.2.1 q
              have h2 := hss.2.1 q
              rw [hm2, keysCount_nil, Nat.zero_add] at h2
              rw [reapedPids_append, List.count_append, h1, h2]
              ring
          | blocked m2 tr2 =>
            have hss := stoppingLoop_spec rest' m' hrs.1
            rw [hs] at hss
            simp only [LoopRes.childrenOf, LoopRes.traceOf] at hss
            simp only [superviseLoop, if_neg hlen, hr, if_neg hlen', hs]
            refine ⟨?_, fun c hc => absurd hc (by simp)⟩
            rw [insertedPids_append, hrs.2.2, hss.2.2]
            rfl
      | blocked m' tr' =>
        have hrs := runningLoop_spec env.events m 0 hnd
        rw [hr] at hrs
        simp only [LoopRes.childrenOf, LoopRes.traceOf] at hrs
        simp only [superviseLoop, if_neg hlen, hr]
        exact ⟨hrs.2.2, fun c hc => absurd hc (by simp)⟩

/-- Inserting a fresh pid appends it to the map. -/
theorem insertChild_of_not_mem (pid : Nat) (nm : String) (m : List (Nat × String))
    (h : pid ∉ m.map Prod.fst) : insertChild pid nm m = m ++ [(pid, nm)] := by
  rw [insertChild, if_neg]
  intro hc
  rw [List.any_eq_true] at hc
  obtain ⟨e, he, hf⟩ := hc
  rw [decide_eq_true_eq] at hf
  exact h (List.mem_map.mpr ⟨e, he, hf⟩)

/-- Keys after inserting a fresh pid. -/
theorem insertChild_keys (pid : Nat) (nm : String) (m : List (Nat × String))
    (h : pid ∉ m.map Prod.fst) :
    (insertChild pid nm m).map Prod.fst = m.map Prod.fst ++ [pid] := by
  rw [insertChild_of_not_mem pid nm m h, List.map_append]
  rfl

/-- Inserting a fresh pid keeps the keys unique. -/
theorem insertChild_nodup (pid : Nat) (nm : String) (m : List (Nat × String))
    (h : pid ∉ m.map Prod.fst) (hnd : (m.map Prod.fst).Nodup) :
    ((insertChild pid nm m).map Prod.fst).Nodup := by
  rw [insertChild_keys pid nm m h]
  refine List.Nodup.append hnd (List.nodup_singleton pid) ?_
  intro a ha hb
  rw [List.mem_singleton] at hb
  subst hb
  exact h ha

/-- Key counts after inserting a fresh pid. -/
theorem insertChild_count (pid : Nat) (nm : String) (m : List (Nat × String))
    (h : pid ∉ m.map Prod.fst) (q : Nat) :
    keysCount q (insertChild pid nm m) = keysCount q m + (if q = pid then 1 else 0) := by
  simp only [keysCount]
  rw [insertChild_keys pid nm m h, List.count_append]
  congr 1
  rcases eq_or_ne q pid with hq | hq
  · simp [hq]
  · simp [hq]

/-- Every action of the container-building loop is a build attempt. -/
theorem buildContainers_actions (env : Env) :
    ∀ (cs seen : List String) (a : Action), a ∈ (buildContainers env cs seen).1 →
      ∃ c, a = Action.buildContainer c := by
  intro cs
  induction cs with
  | nil => intro seen a ha; simp [buildContainers] at ha
  | cons c rest ih =>
    intro seen a ha
    by_cases hc : seen.contains c
    · rw [buildContainers, if_pos hc] at ha
      exact ih seen a ha
    · by_cases hb : env.buildOk c
      · rw [buildContainers, if_neg hc, if_pos hb] at ha
        rcases List.mem_cons.mp ha with h | h
        · exact ⟨c, h⟩
        · exact ih (c :: seen) a h
      · rw [buildContainers, if_neg hc, if_neg hb] at ha
        rw [List.mem_singleton] at ha
        exact ⟨c, ha⟩

/-- The container-building loop spawns, reaps and signals nothing. -/
theorem buildContainers_props (env : Env) (cs seen : List String) :
    insertedPids (buildContainers env cs seen).1 = []
    ∧ reapedPids (buildContainers env cs seen).1 = []
    ∧ spawnAttemptNames (buildContainers env cs seen).1 = []
    ∧ ∀ a ∈ (buildContainers env cs seen).1, isSignalChild a = false := by
  refine ⟨List.filterMap_eq_nil_iff.mpr ?_, List.filterMap_eq_nil_iff.mpr ?_,
    List.filterMap_eq_nil_iff.mpr ?_, ?_⟩ <;>
    intro a ha <;> obtain ⟨c, rfl⟩ := buildContainers_actions env cs seen a ha <;> rfl

/-- When every build succeeds, the container-building loop reports no
error. -/
theorem buildContainers_ok (env : Env) (hb : ∀ c, env.buildOk c = true) :
    ∀ (cs seen : List String), (buildContainers env cs seen).2 = none := by
  intro cs
  induction cs with
  | nil => intro seen; rfl
  | cons c rest ih =>
    intro seen
    by_cases hc : seen.contains c
    · rw [buildContainers, if_pos hc]
      exact ih seen
    · rw [buildContainers, if_neg hc, if_pos (hb c)]
      exact ih (c :: seen)

/-- The host-net spawning loop records exactly one spawn attempt per child,
in plan order, with the environment's outcome. -/
theorem spawnHostGo_trace (env : Env) :
    ∀ (names : List String) (m : List (Nat × String)) (er : Bool),
    (spawnHostGo env names m er).1 =
      names.map (fun n => Action.spawnAttempt n (env.spawnPid n)) := by
  intro names
  induction names with
  | nil => intro m er; rfl
  | cons n rest ih =>
    intro m er
    cases hp : env.spawnPid n with
    | some pid => simp [spawnHostGo, hp, ih]
    | none => simp [spawnHostGo, hp, ih]

/-- The names of a pure sequence of spawn attempts. -/
theorem spawnAttemptNames_map_spawn (f : String → Option Nat) :
    ∀ names : List String,
    spawnAttemptNames (names.map (fun n => Action.spawnAttempt n (f n))) = names := by
  intro names
  induction names with
  | nil => rfl
  | cons n rest ih =>
    simpa [spawnAttemptNames, List.filterMap_cons] using ih

/-- The inserted pids of a pure sequence of spawn attempts. -/
theorem insertedPids_map_spawn (f : String → Option Nat) :
    ∀ names : List String,
    insertedPids (names.map (fun n => Action.spawnAttempt n (f n))) =
      names.filterMap f := by
  intro names
  induction names with
  | nil => rfl
  | cons n rest ih =>
    cases hp : f n with
    | some pid => simp [insertedPids, List.filterMap_cons, hp] at ih ⊢; exact ih
    | none => simp [insertedPids, List.filterMap_cons, hp] at ih ⊢; exact ih

/-- A pure sequence of spawn attempts reaps nothing. -/
theorem reapedPids_map_spawn (f : String → Option Nat) (names : List String) :
    reapedPids (names.map (fun n => Action.spawnAttempt n (f n))) = [] := by
  refine List.filterMap_eq_nil_iff.mpr ?_
  intro a ha
  obtain ⟨n, _, rfl⟩ := List.mem_map.mp ha
  rfl

/-- A pure sequence of spawn attempts signals nobody. -/
theorem signalFree_map_spawn (f : String → Option Nat) (names : List String) :
    ∀ a ∈ names.map (fun n => Action.spawnAttempt n (f n)), isSignalChild a = false := by
  intro a ha
  obtain ⟨n, _, rfl⟩ := List.mem_map.mp ha
  rfl

/-- With distinct pids, the successful spawn outcomes of distinct names are
distinct. -/
theorem filterMap_spawnPid_nodup (f : String → Option Nat)
    (hinj : ∀ n1 n2 p, f n1 = some p → f n2 = some p → n1 = n2) :
    ∀ (names : List String), names.Nodup → (names.filterMap f).Nodup := by
  intro names
  induction names with
  | nil => intro _; simp
  | cons n rest ih =>
    intro hnd
    rw [List.filterMap_cons]
    obtain ⟨hn, hrest⟩ := List.nodup_cons.mp hnd
    cases hf : f n with
    | none => exact ih hrest
    | some p =>
      refine List.nodup_cons.mpr ⟨?_, ih hrest⟩
      intro hmem
      obtain ⟨n', hn', hf'⟩ := List.mem_filterMap.mp hmem
      have : n' = n := hinj n' n p hf' hf
      subst this
      exact hn hn'

/-- The host-net spawning loop extends the map by exactly the successfully
spawned pids. -/
theorem spawnHostGo_keys (env : Env)
    (hinj : ∀ n1 n2 p, env.spawnPid n1 = some p → env.spawnPid n2 = some p → n1 = n2) :
    ∀ (names : List String) (m : List (Nat × String)) (er : Bool),
    names.Nodup →
    (∀ n ∈ names, ∀ p, env.spawnPid n = some p → p ∉ m.map Prod.fst) →
    (m.map Prod.fst).Nodup →
    (((spawnHostGo env names m er).2.1).map Prod.fst).Nodup
    ∧ (∀ q, keysCount q (spawnHostGo env names m er).2.1 =
        keysCount q m + (names.filterMap env.spawnPid).count q) := by
  intro names
  induction names with
  | nil =>
    intro m er _ _ hnd
    exact ⟨hnd, fun q => by simp [spawnHostGo]⟩
  | cons n rest ih =>
    intro m er hnd hdisj hndm
    obtain ⟨hn, hrest⟩ := List.nodup_cons.mp hnd
    cases hp : env.spawnPid n with
    | none =>
      have hdisj' : ∀ n' ∈ rest, ∀ p, env.spawnPid n' = some p → p ∉ m.map Prod.fst :=
        fun n' h' p hp' => hdisj n' (List.mem_cons_of_mem n h') p hp'
      obtain ⟨ha, hb⟩ := ih m true hrest hdisj' hndm
      simp only [spawnHostGo, hp]
      exact ⟨ha, fun q => by rw [hb q, List.filterMap_cons, hp]⟩
    | some pid =>
      have hfresh : pid ∉ m.map Prod.fst := hdisj n (List.mem_cons_self n rest) pid hp
      have hdisj' : ∀ n' ∈ rest, ∀ p, env.spawnPid n' = some p →
          p ∉ (insertChild pid n m).map Prod.fst := by
        intro n' h' p hp' hin
        rw [insertChild_keys pid n m hfresh] at hin
        rcases List.mem_append.mp hin with h'' | h''
        · exact hdisj n' (List.mem_cons_of_mem n h') p hp' h''
        · rw [List.mem_singleton] at h''
          subst h''
          have : n' = n := hinj n' n p hp' hp
          subst this
          exact hn h'
      obtain ⟨ha, hb⟩ := ih (insertChild pid n m) er hrest hdisj'
        (insertChild_nodup pid n m hfresh hndm)
      simp only [spawnHostGo, hp]
      refine ⟨ha, fun q => ?_⟩
      rw [hb q, insertChild_count pid n m hfresh q, List.filterMap_cons, hp,
        List.count_cons]
      simp only [beq_iff_eq]
      rcases eq_or_ne q pid with hq | hq
      · simp [hq]
        ring
      · simp [hq, Ne.symm hq]

/-- `addTrace` does not change the state of a step result. -/
theorem StepRes_stateOf_addTrace {σ : Type} (t : List Action) (r : StepRes σ) :
    (r.addTrace t).stateOf = r.stateOf := by
  cases r <;> rfl

/-- `addTrace` prepends to the trace of a step result. -/
theorem StepRes_traceOf_addTrace {σ : Type} (t : List Action) (r : StepRes σ) :
    (r.addTrace t).traceOf = t ++ r.traceOf := by
  cases r <;> rfl

/-- A trace without spawn, reap or signal actions establishes the spawning
invariant over an unchanged map. -/
theorem NetnsSpec_base (env : Env) (names : List String) (m : List (Nat × String))
    (er : Bool) (tr : List Action) (hnd : (m.map Prod.fst).Nodup)
    (h1 : insertedPids tr = []) (h2 : reapedPids tr = [])
    (h3 : ∀ a ∈ tr, isSignalChild a = false) :
    NetnsSpec env names m tr (m, er) := by
  refine ⟨hnd, fun q => by simp [h1], ⟨[], List.nil_sublist names, by simp [h1]⟩, h2, h3⟩

/-- The spawning invariant survives surrounding a trace with spawn-free,
reap-free, signal-free actions. -/
theorem NetnsSpec_extend (env : Env) (names : List String) (m : List (Nat × String))
    {tr : List Action} {st : List (Nat × String) × Bool} (t1 t2 : List Action)
    (h : NetnsSpec env names m tr st)
    (h1 : insertedPids t1 = []) (h2 : reapedPids t1 = [])
    (h3 : ∀ a ∈ t1, isSignalChild a = false)
    (h4 : insertedPids t2 = []) (h5 : reapedPids t2 = [])
    (h6 : ∀ a ∈ t2, isSignalChild a = false) :
    NetnsSpec env names m (t1 ++ tr ++ t2) st := by
  obtain ⟨ha, hb, ⟨ns', hsub, hins⟩, hd, he⟩ := h
  have hh : insertedPids (t1 ++ tr ++ t2) = insertedPids tr := by
    rw [insertedPids_append, insertedPids_append, h1, h4]
    simp
  refine ⟨ha, fun q => by rw [hh]; exact hb q, ⟨ns', hsub, by rw [hh]; exact hins⟩, ?_, ?_⟩
  · rw [reapedPids_append, reapedPids_append, h2, h5, hd]
    rfl
  · intro a ha'
    rcases List.mem_append.mp ha' with h' | h'
    · rcases List.mem_append.mp h' with h'' | h''
      · exact h3 a h''
      · exact he a h''
    · exact h6 a h'

/-- A successful spawn of a fresh pid extends the spawning invariant by one
processed name. -/
theorem NetnsSpec_spawn_some (env : Env)
    (names : List String) (n : String) (m : List (Nat × String)) (pid : Nat)
    {tr : List Action} {st : List (Nat × String) × Bool}
    (hp : env.spawnPid n = some pid)
    (hfresh : pid ∉ m.map Prod.fst)
    (h : NetnsSpec env names (insertChild pid n m) tr st) :
    NetnsSpec env (n :: names) m (Action.spawnAttempt n (some pid) :: tr) st := by
  obtain ⟨ha, hb, ⟨ns', hsub, hins⟩, hd, he⟩ := h
  have hicons : insertedPids (Action.spawnAttempt n (some pid) :: tr) =
      pid :: insertedPids tr := by
    simp [insertedPids, List.filterMap_cons]
  refine ⟨ha, fun q => ?_,
    ⟨n :: ns', List.Sublist.cons₂ n hsub, by rw [hicons, hins, List.filterMap_cons, hp]⟩,
    ?_, ?_⟩
  · rw [hicons, List.count_cons, hb q, insertChild_count pid n m hfresh q]
    simp only [beq_iff_eq]
    rcases eq_or_ne q pid with hq | hq
    · simp [hq]
      ring
    · simp [hq, Ne.symm hq]
  · have hr : reapedPids (Action.spawnAttempt n (some pid) :: tr) = reapedPids tr := by
      simp [reapedPids, List.filterMap_cons]
    rw [hr, hd]
  · intro a ha'
    rcases List.mem_cons.mp ha' with h' | h'
    · rw [h']; rfl
    · exact he a h'

/-- A failed spawn extends the spawning invariant by one processed name
without touching the map. -/
theorem NetnsSpec_spawn_none (env : Env) (names : List String) (n : String)
    (m : List (Nat × String)) {tr : List Action} {st : List (Nat × String) × Bool}
    (h : NetnsSpec env names m tr st) :
    NetnsSpec env (n :: names) m (Action.spawnAttempt n none :: tr) st := by
  obtain ⟨ha, hb, ⟨ns', hsub, hins⟩, hd, he⟩ := h
  have hicons : insertedPids (Action.spawnAttempt n none :: tr) = insertedPids tr := by
    simp [insertedPids, List.filterMap_cons]
  refine ⟨ha, fun q => by rw [hicons]; exact hb q,
    ⟨ns', List.Sublist.cons n hsub, by rw [hicons]; exact hins⟩, ?_, ?_⟩
  · have hr : reapedPids (Action.spawnAttempt n none :: tr) = reapedPids tr := by
      simp [reapedPids, List.filterMap_cons]
    rw [hr, hd]
  · intro a ha'
    rcases List.mem_cons.mp ha' with h' | h'
    · rw [h']; rfl
    · exact he a h'

/-- The empty trace signals nobody. -/
theorem noSignal_nil : ∀ a ∈ ([] : List Action), isSignalChild a = false := by
  simp

/-- Extending a signal-free trace by a non-signal action. -/
theorem noSignal_cons {x : Action} {tr : List Action} (hx : isSignalChild x = false)
    (h : ∀ a ∈ tr, isSignalChild a = false) :
    ∀ a ∈ x :: tr, isSignalChild a = false := by
  intro a ha
  rcases List.mem_cons.mp ha with rfl | h'
  · exact hx
  · exact h a h'

/-- After inserting the fresh pid of the head child, the remaining children
still spawn pids outside the map. -/
theorem disj_insert (env : Env)
    (hinj : ∀ n1 n2 p, env.spawnPid n1 = some p → env.spawnPid n2 = some p → n1 = n2)
    (name : String) (rest : List String) (m : List (Nat × String)) (pid : Nat)
    (hn : name ∉ rest)
    (hp : env.spawnPid name = some pid)
    (hfresh : pid ∉ m.map Prod.fst)
    (hdisj : ∀ n ∈ name :: rest, ∀ p, env.spawnPid n = some p → p ∉ m.map Prod.fst) :
    ∀ n ∈ rest, ∀ p, env.spawnPid n = some p →
      p ∉ (insertChild pid name m).map Prod.fst := by
  intro n h p hp' hin
  rw [insertChild_keys pid name m hfresh] at hin
  rcases List.mem_append.mp hin with h'' | h''
  · exact hdisj n (List.mem_cons_of_mem name h) p hp' h''
  · rw [List.mem_singleton] at h''
    subst h''
    have heq : n = name := hinj n name p hp' hp
    subst heq
    exact hn h

/-- The spawning invariant survives prepending spawn-free, reap-free,
signal-free actions. -/
theorem NetnsSpec_prepend (env : Env) (names : List String) (m : List (Nat × String))
    {tr : List Action} {st : List (Nat × String) × Bool} (t1 : List Action)
    (h1 : insertedPids t1 = []) (h2 : reapedPids t1 = [])
    (h3 : ∀ a ∈ t1, isSignalChild a = false)
    (h : NetnsSpec env names m tr st) :
    NetnsSpec env names m (t1 ++ tr) st := by
  obtain ⟨ha, hb, ⟨ns', hsub, hins⟩, hd, he⟩ := h
  have hh : insertedPids (t1 ++ tr) = insertedPids tr := by
    rw [insertedPids_append, h1]
    rfl
  refine ⟨ha, fun q => by rw [hh]; exact hb q,
    ⟨ns', hsub, by rw [hh]; exact hins⟩, ?_, ?_⟩
  · rw [reapedPids_append, h2, hd]
    rfl
  · intro a ha'
    rcases List.mem_append.mp ha' with h' | h'
    · exact h3 a h'
    · exact he a h'

/-- The spawning invariant survives appending spawn-free, reap-free,
signal-free actions. -/
theorem NetnsSpec_append_end (env : Env) (names : List String) (m : List (Nat × String))
    {tr : List Action} {st : List (Nat × String) × Bool} (t2 : List Action)
    (h4 : insertedPids t2 = []) (h5 : reapedPids t2 = [])
    (h6 : ∀ a ∈ t2, isSignalChild a = false)
    (h : NetnsSpec env names m tr st) :
    NetnsSpec env names m (tr ++ t2) st := by
  obtain ⟨ha, hb, ⟨ns', hsub, hins⟩, hd, he⟩ := h
  have hh : insertedPids (tr ++ t2) = insertedPids tr := by
    rw [insertedPids_append, h4, List.append_nil]
  refine ⟨ha, fun q => by rw [hh]; exact hb q,
    ⟨ns', hsub, by rw [hh]; exact hins⟩, ?_, ?_⟩
  · rw [reapedPids_append, h5, hd, List.append_nil]
  · intro a ha'
    rcases List.mem_append.mp ha' with h' | h'
    · exact he a h'
    · exact h6 a h'

/-- The namespaced spawning loop satisfies the spawning invariant: it only
adds freshly spawned pids to the map (in particular it reaps nothing and
signals nobody), whatever combination of namespace failures, spawn failures
and panics the environment produces. -/
theorem spawnNetnsChildren_spec (sup : SuperviseInfo) (env : Env)
    (hinj : ∀ n1 n2 p, env.spawnPid n1 = some p → env.spawnPid n2 = some p → n1 = n2) :
    ∀ (names : List String) (m : List (Nat × String)) (er : Bool),
    names.Nodup →
    (∀ n ∈ names, ∀ p, env.spawnPid n = some p → p ∉ m.map Prod.fst) →
    (m.map Prod.fst).Nodup →
    NetnsSpec env names m (spawnNetnsChildren sup env names m er).traceOf
      (spawnNetnsChildren sup env names m er).stateOf := by
  intro names
  induction names with
  | nil =>
    intro m er _ _ hndm
    exact NetnsSpec_base env [] m er [] hndm rfl rfl noSignal_nil
  | cons name rest ih =>
    intro m er hnd hdisj hndm
    obtain ⟨hn, hrest⟩ := List.nodup_cons.mp hnd
    have hdisj_rest : ∀ n ∈ rest, ∀ p, env.spawnPid n = some p → p ∉ m.map Prod.fst :=
      fun n h p hp => hdisj n (List.mem_cons_of_mem name h) p hp
    cases hlk : sup.children.lookup name with
    | none =>
      simp only [spawnNetnsChildren, hlk, StepRes.traceOf, StepRes.stateOf]
      exact NetnsSpec_base env (name :: rest) m er [] hndm rfl rfl noSignal_nil
    | some child =>
      cases hbr : env.setBridgeNsOk name with
      | false =>
        simp [spawnNetnsChildren, hlk, hbr, StepRes.traceOf, StepRes.stateOf]
        exact NetnsSpec_base env (name :: rest) m er [Action.setNs "bridge"] hndm
          rfl rfl (noSignal_cons rfl noSignal_nil)
      | true =>
        cases child with
        | bridgeCmd c =>
          cases hp : env.spawnPid name with
          | some pid =>
            have hfresh : pid ∉ m.map Prod.fst :=
              hdisj name (List.mem_cons_self name rest) pid hp
            have hdisj' := disj_insert env hinj name rest m pid hn hp hfresh hdisj
            have hrec := ih (insertChild pid name m) er hrest hdisj'
              (insertChild_nodup pid name m hfresh hndm)
            simp [spawnNetnsChildren, hlk, hbr, hp, StepRes_traceOf_addTrace,
              StepRes_stateOf_addTrace]
            exact NetnsSpec_prepend env (name :: rest) m [Action.setNs "bridge"]
              rfl rfl (noSignal_cons rfl noSignal_nil)
              (NetnsSpec_spawn_some env rest name m pid hp hfresh hrec)
          | none =>
            have hrec := ih m true hrest hdisj_rest hndm
            simp [spawnNetnsChildren, hlk, hbr, hp, StepRes_traceOf_addTrace,
              StepRes_stateOf_addTrace]
            exact NetnsSpec_prepend env (name :: rest) m [Action.setNs "bridge"]
              rfl rfl (noSignal_cons rfl noSignal_nil)
              (NetnsSpec_spawn_none env rest name m hrec)
        | cmd c nonet =>
          cases nonet with
          | none =>
            simp [spawnNetnsChildren, hlk, hbr, StepRes.traceOf, StepRes.stateOf]
            exact NetnsSpec_base env (name :: rest) m er [Action.setNs "bridge"] hndm
              rfl rfl (noSignal_cons rfl noSignal_nil)
          | some netw =>
            cases hsc : env.setupContainerOk name with
            | false =>
              simp [spawnNetnsChildren, hlk, hbr, hsc, StepRes.traceOf, StepRes.stateOf]
              exact NetnsSpec_base env (name :: rest) m er
                [Action.setNs "bridge",
                 Action.setupContainerNs name netw.ip (netw.hostname.getD name)] hndm
                rfl rfl (noSignal_cons rfl (noSignal_cons rfl noSignal_nil))
            | true =>
              cases hnn : env.setNetNsOk name with
              | false =>
                simp [spawnNetnsChildren, hlk, hbr, hsc, hnn, StepRes.traceOf,
                  StepRes.stateOf]
                exact NetnsSpec_base env (name :: rest) m er
                  [Action.setNs "bridge",
                   Action.setupContainerNs name netw.ip (netw.hostname.getD name),
                   Action.setNs ("net." ++ netw.ip)] hndm
                  rfl rfl
                  (noSignal_cons rfl (noSignal_cons rfl (noSignal_cons rfl noSignal_nil)))
              | true =>
                cases hut : env.setUtsNsOk name with
                | false =>
                  simp [spawnNetnsChildren, hlk, hbr, hsc, hnn, hut, StepRes.traceOf,
                    StepRes.stateOf]
                  exact NetnsSpec_base env (name :: rest) m er
                    [Action.setNs "bridge",
                     Action.setupContainerNs name netw.ip (netw.hostname.getD name),
                     Action.setNs ("net." ++ netw.ip),
                     Action.setNs ("uts." ++ netw.ip)] hndm
                    rfl rfl
                    (noSignal_cons rfl (noSignal_cons rfl
                      (noSignal_cons rfl (noSignal_cons rfl noSignal_nil))))
                | true =>
                  cases hp : env.spawnPid name with
                  | some pid =>
                    have hfresh : pid ∉ m.map Prod.fst :=
                      hdisj name (List.mem_cons_self name rest) pid hp
                    have hdisj' := disj_insert env hinj name rest m pid hn hp hfresh hdisj
                    have hrec := ih (insertChild pid name m) er hrest hdisj'
                      (insertChild_nodup pid name m hfresh hndm)
                    simp [spawnNetnsChildren, hlk, hbr, hsc, hnn, hut, hp,
                      StepRes_traceOf_addTrace, StepRes_stateOf_addTrace]
                    exact NetnsSpec_prepend env (name :: rest) m
                      [Action.setNs "bridge",
                       Action.setupContainerNs name netw.ip (netw.hostname.getD name),
                       Action.setNs ("net." ++ netw.ip),
                       Action.setNs ("uts." ++ netw.ip)]
                      rfl rfl
                      (noSignal_cons rfl (noSignal_cons rfl
                        (noSignal_cons rfl (noSignal_cons rfl noSignal_nil))))
                      (NetnsSpec_spawn_some env rest name m pid hp hfresh hrec)
                  | none =>
                    have hrec := ih m true hrest hdisj_rest hndm
                    simp [spawnNetnsChildren, hlk, hbr, hsc, hnn, hut, hp,
                      StepRes_traceOf_addTrace, StepRes_stateOf_addTrace]
                    exact NetnsSpec_prepend env (name :: rest) m
                      [Action.setNs "bridge",
                       Action.setupContainerNs name netw.ip (netw.hostname.getD name),
                       Action.setNs ("net." ++ netw.ip),
                       Action.setNs ("uts." ++ netw.ip)]
                      rfl rfl
                      (noSignal_cons rfl (noSignal_cons rfl
                        (noSignal_cons rfl (noSignal_cons rfl noSignal_nil))))
                      (NetnsSpec_spawn_none env rest name m hrec)

/-- The whole namespaced phase satisfies the spawning invariant: besides the
spawns of the namespaced children it only performs namespace bookkeeping,
whatever step fails. -/
theorem netnsPhase_spec (sup : SuperviseInfo) (env : Env)
    (hinj : ∀ n1 n2 p, env.spawnPid n1 = some p → env.spawnPid n2 = some p → n1 = n2)
    (cls : Classified) (m : List (Nat × String)) (er : Bool)
    (hnames : cls.netns.Nodup)
    (hdisj : ∀ n ∈ cls.netns, ∀ p, env.spawnPid n = some p → p ∉ m.map Prod.fst)
    (hndm : (m.map Prod.fst).Nodup) :
    NetnsSpec env cls.netns m (netnsPhase sup env cls m er).traceOf
      (netnsPhase sup env cls m er).stateOf := by
  have h1i : insertedPids
      (if env.nsdirExists then ([] : List Action) else [Action.createChildrenDir]) = [] := by
    cases env.nsdirExists <;> rfl
  have h1r : reapedPids
      (if env.nsdirExists then ([] : List Action) else [Action.createChildrenDir]) = [] := by
    cases env.nsdirExists <;> rfl
  have h1s : ∀ a ∈ (if env.nsdirExists then ([] : List Action)
      else [Action.createChildrenDir]), isSignalChild a = false := by
    cases env.nsdirExists
    · exact noSignal_cons rfl noSignal_nil
    · exact noSignal_nil
  by_cases hlen : cls.netns.length = 0
  · simp only [netnsPhase, if_pos hlen, StepRes.traceOf, StepRes.stateOf]
    exact NetnsSpec_base env cls.netns m er [] hndm rfl rfl noSignal_nil
  · have hne : cls.netns ≠ [] := by
      intro h
      exact hlen (by simp [h])
    cases hdc : (!env.nsdirExists && !env.createDirOk) with
    | true =>
      simp only [netnsPhase, if_neg hlen, hdc, if_true, StepRes.traceOf, StepRes.stateOf]
      exact NetnsSpec_base env cls.netns m er _ hndm h1i h1r h1s
    | false =>
      cases hjg : env.joinGatewayOk with
      | false =>
        simp [netnsPhase, if_neg hlen, hne, hdc, hjg, StepRes.traceOf, StepRes.stateOf]
        refine NetnsSpec_base env cls.netns m er _ hndm ?_ ?_ ?_
        · simp [h1i, insertedPids, List.filterMap_cons]
        · simp [h1r, reapedPids, List.filterMap_cons]
        · intro a ha
          rcases List.mem_append.mp ha with h' | h'
          · exact h1s a h'
          · fin_cases h' <;> rfl
      | true =>
        cases hum : env.unshareMountOk with
        | false =>
          simp [netnsPhase, if_neg hlen, hne, hdc, hjg, hum, StepRes.traceOf, StepRes.stateOf]
          refine NetnsSpec_base env cls.netns m er _ hndm ?_ ?_ ?_
          · simp [h1i, insertedPids, List.filterMap_cons]
          · simp [h1r, reapedPids, List.filterMap_cons]
          · intro a ha
            rcases List.mem_append.mp ha with h' | h'
            · exact h1s a h'
            · fin_cases h' <;> rfl
        | true =>
          cases hmt : env.mountTmpfsOk with
          | false =>
            simp [netnsPhase, if_neg hlen, hne, hdc, hjg, hum, hmt, StepRes.traceOf,
              StepRes.stateOf]
            refine NetnsSpec_base env cls.netns m er _ hndm ?_ ?_ ?_
            · simp [h1i, insertedPids, List.filterMap_cons]
            · simp [h1r, reapedPids, List.filterMap_cons]
            · intro a ha
              rcases List.mem_append.mp ha with h' | h'
              · exact h1s a h'
              · fin_cases h' <;> rfl
          | true =>
            cases hsb : env.setupBridgeIp with
            | none =>
              simp [netnsPhase, if_neg hlen, hne, hdc, hjg, hum, hmt, hsb, StepRes.traceOf,
                StepRes.stateOf]
              refine NetnsSpec_base env cls.netns m er _ hndm ?_ ?_ ?_
              · simp [h1i, insertedPids, List.filterMap_cons]
              · simp [h1r, reapedPids, List.filterMap_cons]
              · intro a ha
                rcases List.mem_append.mp ha with h' | h'
                · exact h1s a h'
                · fin_cases h' <;> rfl
            | some ip =>
              cases hsf : env.startForwardingOk with
              | false =>
                simp [netnsPhase, if_neg hlen, hne, hdc, hjg, hum, hmt, hsb, hsf,
                  StepRes.traceOf, StepRes.stateOf]
                refine NetnsSpec_base env cls.netns m er _ hndm ?_ ?_ ?_
                · simp [h1i, insertedPids, List.filterMap_cons]
                · simp [h1r, reapedPids, List.filterMap_cons]
                · intro a ha
                  rcases List.mem_append.mp ha with h' | h'
                  · exact h1s a h'
                  · fin_cases h' <;> rfl
              | true =>
                have hspec := spawnNetnsChildren_spec sup env hinj cls.netns m er
                  hnames hdisj hndm
                have ht6i : insertedPids
                    ((if env.nsdirExists then ([] : List Action)
                      else [Action.createChildrenDir]) ++
                     [Action.joinGateway] ++ [Action.unshareMount] ++
                     [Action.mountTmpfs] ++ [Action.setupBridge] ++
                     [Action.startForwarding]) = [] := by
                  cases env.nsdirExists <;> rfl
                have ht6r : reapedPids
                    ((if env.nsdirExists then ([] : List Action)
                      else [Action.createChildrenDir]) ++
                     [Action.joinGateway] ++ [Action.unshareMount] ++
                     [Action.mountTmpfs] ++ [Action.setupBridge] ++
                     [Action.startForwarding]) = [] := by
                  cases env.nsdirExists <;> rfl
                have ht6s : ∀ a ∈ ((if env.nsdirExists then ([] : List Action)
                      else [Action.createChildrenDir]) ++
                     [Action.joinGateway] ++ [Action.unshareMount] ++
                     [Action.mountTmpfs] ++ [Action.setupBridge] ++
                     [Action.startForwarding]), isSignalChild a = false := by
                  intro a ha
                  rcases List.mem_append.mp ha with h' | h'
                  · rcases List.mem_append.mp h' with h' | h'
                    · rcases List.mem_append.mp h' with h' | h'
                      · rcases List.mem_append.mp h' with h' | h'
                        · rcases List.mem_append.mp h' with h' | h'
                          · exact h1s a h'
                          · fin_cases h' <;> rfl
                        · fin_cases h' <;> rfl
                      · fin_cases h' <;> rfl
                    · fin_cases h' <;> rfl
                  · fin_cases h' <;> rfl
                cases hsp : spawnNetnsChildren sup env cls.netns m er with
                | err tr s msg =>
                  rw [hsp] at hspec
                  simp only [StepRes.traceOf, StepRes.stateOf] at hspec
                  simp only [netnsPhase, if_neg hlen, hdc, hjg, hum, hmt, hsb, hsf, hsp,
                    Bool.not_true, Bool.not_false, if_false, StepRes.traceOf,
                    StepRes.stateOf]
                  exact NetnsSpec_prepend env cls.netns m _ ht6i ht6r ht6s hspec
                | panicked tr s msg =>
                  rw [hsp] at hspec
                  simp only [StepRes.traceOf, StepRes.stateOf] at hspec
                  simp only [netnsPhase, if_neg hlen, hdc, hjg, hum, hmt, hsb, hsf, hsp,
                    Bool.not_true, Bool.not_false, if_false, StepRes.traceOf,
                    StepRes.stateOf]
                  exact NetnsSpec_prepend env cls.netns m _ ht6i ht6r ht6s hspec
                | ok tr s =>
                  rw [hsp] at hspec
                  simp only [StepRes.traceOf, StepRes.stateOf] at hspec
                  have hbind : NetnsSpec env cls.netns m (tr ++ [Action.setNs "bridge"]) s :=
                    NetnsSpec_append_end env cls.netns m [Action.setNs "bridge"]
                      rfl rfl (noSignal_cons rfl noSignal_nil) hspec
                  cases hfin : env.setBridgeNsFinalOk with
                  | false =>
                    simp only [netnsPhase, if_neg hlen, hdc, hjg, hum, hmt, hsb, hsf, hsp,
                      hfin, Bool.not_true, Bool.not_false, if_false, if_true,
                      StepRes.traceOf, StepRes.stateOf]
                    have := NetnsSpec_prepend env cls.netns m _ ht6i ht6r ht6s hbind
                    simpa [List.append_assoc] using this
                  | true =>
                    simp only [netnsPhase, if_neg hlen, hdc, hjg, hum, hmt, hsb, hsf, hsp,
                      hfin, Bool.not_true, Bool.not_false, if_false, if_true,
                      StepRes.traceOf, StepRes.stateOf]
                    have := NetnsSpec_prepend env cls.netns m _ ht6i ht6r ht6s hbind
                    simpa [List.append_assoc] using this

/-- Each child contributes its name to exactly one classification bucket, so
the three buckets together are a permutation of the plan's names. -/
theorem classifyGo_perm :
    ∀ (ch : List (String × ChildCommand)),
    List.Perm
      ((classifyGo ch).1 ++ ((classifyGo ch).2.1 ++ (classifyGo ch).2.2.1))
      (ch.map Prod.fst) := by
  intro ch
  induction ch with
  | nil => simp [classifyGo]
  | cons e rest ih =>
    obtain ⟨name, child⟩ := e
    cases child with
    | bridgeCmd c =>
      simp only [classifyGo, List.map_cons]
      refine List.Perm.trans ?_ (ih.cons name)
      exact List.perm_middle
    | cmd c netw =>
      cases netw with
      | some nw =>
        simp only [classifyGo, List.map_cons]
        exact ih.cons name
      | none =>
        simp only [classifyGo, List.map_cons]
        refine List.Perm.trans ?_ (ih.cons name)
        have h := @List.perm_middle String name
          ((classifyGo rest).1 ++ (classifyGo rest).2.1) (classifyGo rest).2.2.1
        simpa [List.append_assoc] using h

/-- With unique child names, the host-net bucket and the namespaced bucket
(networked children then bridges) have unique, mutually disjoint names. -/
theorem classify_names (ch : List (String × ChildCommand))
    (hnodup : (ch.map Prod.fst).Nodup) :
    (classify ch).hostNet.Nodup
    ∧ (classify ch).netns.Nodup
    ∧ ∀ x ∈ (classify ch).hostNet, x ∉ (classify ch).netns := by
  have hp := classifyGo_perm ch
  have hnd : ((classifyGo ch).1 ++
      ((classifyGo ch).2.1 ++ (classifyGo ch).2.2.1)).Nodup :=
    hp.symm.nodup hnodup
  rw [List.nodup_append] at hnd
  obtain ⟨h1, h23, hd1⟩ := hnd
  rw [List.nodup_append] at h23
  obtain ⟨h2, h3, hd2⟩ := h23
  refine ⟨h3, ?_, ?_⟩
  · show ((classifyGo ch).1 ++ (classifyGo ch).2.1).Nodup
    rw [List.nodup_append]
    refine ⟨h1, h2, ?_⟩
    intro a ha hb
    exact hd1 ha (List.mem_append_left _ hb)
  · intro x hx hmem
    have hmem' : x ∈ (classifyGo ch).1 ++ (classifyGo ch).2.1 := hmem
    rcases List.mem_append.mp hmem' with h' | h'
    · exact hd1 h' (List.mem_append_right _ hx)
    · exact hd2 h' hx

/-- The whole launch phase: the tracked map it hands to the signal loops
holds exactly the successfully spawned pids (each exactly once), and its
trace contains no reap and no signal. -/
theorem launchPhase_spec (sup : SuperviseInfo) (env : Env)
    (hinj : ∀ n1 n2 p, env.spawnPid n1 = some p → env.spawnPid n2 = some p → n1 = n2)
    (hnodup : (sup.children.map Prod.fst).Nodup) :
    (((launchPhase sup env).stateOf.1).map Prod.fst).Nodup
    ∧ (∀ q, keysCount q (launchPhase sup env).stateOf.1 =
        (insertedPids (launchPhase sup env).traceOf).count q)
    ∧ (insertedPids (launchPhase sup env).traceOf).Nodup
    ∧ reapedPids (launchPhase sup env).traceOf = []
    ∧ ∀ a ∈ (launchPhase sup env).traceOf, isSignalChild a = false := by
  obtain ⟨hbi, hbr2, hbn, hbs⟩ :=
    buildContainers_props env (sup.children.map (fun c => c.2.get_container)) []
  obtain ⟨hhn, hnn, hdisjHN⟩ := classify_names sup.children hnodup
  cases hb2 : (buildContainers env
      (sup.children.map (fun c => c.2.get_container)) []).2 with
  | some msg =>
    simp only [launchPhase, hb2, StepRes.traceOf, StepRes.stateOf]
    exact ⟨List.nodup_nil, fun q => by simp [hbi, keysCount],
      by rw [hbi]; exact List.nodup_nil, hbr2, hbs⟩
  | none =>
    cases hnc : ((classify sup.children).netns.length != 0) && !env.netnsSetUp with
    | true =>
      simp only [launchPhase, hb2, hnc, if_true, StepRes.traceOf, StepRes.stateOf]
      exact ⟨List.nodup_nil, fun q => by simp [hbi, keysCount],
        by rw [hbi]; exact List.nodup_nil, hbr2, hbs⟩
    | false =>
      have hdisj0 : ∀ n ∈ (classify sup.children).hostNet, ∀ p,
          env.spawnPid n = some p → p ∉ (([] : List (Nat × String)).map Prod.fst) := by
        intro n _ p _ h
        simp at h
      obtain ⟨hm1nd, hm1c⟩ :=
        spawnHostGo_keys env hinj (classify sup.children).hostNet [] false hhn hdisj0
          List.nodup_nil
      have htr := spawnHostGo_trace env (classify sup.children).hostNet [] false
      have hm1mem : ∀ p ∈ ((spawnHostGo env (classify sup.children).hostNet
          [] false).2.1).map Prod.fst,
          ∃ n ∈ (classify sup.children).hostNet, env.spawnPid n = some p := by
        intro p hp
        have hpos : 0 < keysCount p
            (spawnHostGo env (classify sup.children).hostNet [] false).2.1 :=
          List.count_pos_iff.mpr hp
        rw [hm1c p, keysCount_nil, Nat.zero_add] at hpos
        have hmem := List.count_pos_iff.mp hpos
        exact List.mem_filterMap.mp hmem
      have hdisjN : ∀ n ∈ (classify sup.children).netns, ∀ p,
          env.spawnPid n = some p →
          p ∉ ((spawnHostGo env (classify sup.children).hostNet
            [] false).2.1).map Prod.fst := by
        intro n hn p hp hmem
        obtain ⟨nh, hnh, hph⟩ := hm1mem p hmem
        have heq : nh = n := hinj nh n p hph hp
        subst heq
        exact hdisjHN nh hnh hn
      have hnet := netnsPhase_spec sup env hinj (classify sup.children)
        (spawnHostGo env (classify sup.children).hostNet [] false).2.1
        (spawnHostGo env (classify sup.children).hostNet [] false).2.2
        hnn hdisjN hm1nd
      obtain ⟨na, nb, ⟨ns', hsub, hins⟩, nd, nsf⟩ := hnet
      have hinsH : insertedPids (spawnHostGo env
          (classify sup.children).hostNet [] false).1 =
          (classify sup.children).hostNet.filterMap env.spawnPid := by
        rw [htr]
        exact insertedPids_map_spawn env.spawnPid (classify sup.children).hostNet
      have hreapH : reapedPids (spawnHostGo env
          (classify sup.children).hostNet [] false).1 = [] := by
        rw [htr]
        exact reapedPids_map_spawn env.spawnPid (classify sup.children).hostNet
      simp only [launchPhase, hb2, hnc, if_false, Bool.false_eq_true,
        StepRes_traceOf_addTrace, StepRes_stateOf_addTrace]
      refine ⟨na, fun q => ?_, ?_, ?_, ?_⟩
      · rw [insertedPids_append, insertedPids_append, hbi, hinsH, nb q, hm1c q,
          keysCount_nil, List.nil_append, List.count_append, hins]
        ring
      · rw [insertedPids_append, insertedPids_append, hbi, hinsH, List.nil_append, hins]
        have hnodupH : ((classify sup.children).hostNet.filterMap env.spawnPid).Nodup :=
          filterMap_spawnPid_nodup env.spawnPid hinj (classify sup.children).hostNet hhn
        have hnodupN : (List.filterMap env.spawnPid ns').Nodup :=
          filterMap_spawnPid_nodup env.spawnPid hinj ns' (hsub.nodup hnn)
        rw [List.nodup_append]
        refine ⟨hnodupH, hnodupN, ?_⟩
        intro p hpH hpN
        obtain ⟨nh, hnh, hph⟩ := List.mem_filterMap.mp hpH
        obtain ⟨nn', hnn', hpn⟩ := List.mem_filterMap.mp hpN
        have heq : nh = nn' := hinj nh nn' p hph hpn
        subst heq
        exact hdisjHN nh hnh (hsub.subset hnn')
      · rw [reapedPids_append, reapedPids_append, hbr2, hreapH, nd]
        rfl
      · intro a ha
        rcases List.mem_append.mp ha with h' | h'
        · rcases List.mem_append.mp h' with h'' | h''
          · exact hbs a h''
          · rw [htr] at h''
            exact signalFree_map_spawn env.spawnPid (classify sup.children).hostNet a h''
        · exact nsf a h'

/-- The signal loops can return `Ok`, block or panic, but never produce an
`Err` result: `try!`-style errors happen only during the launch phase. -/
theorem superviseLoop_result_ne_err (env : Env) (m : List (Nat × String))
    (er : Bool) (msg : String) :
    (superviseLoop env m er).result ≠ RunResult.err msg := by
  cases er with
  | true =>
    by_cases hlen : m.length = 0
    · simp [superviseLoop, hlen]
    · simp only [superviseLoop, if_neg hlen]
      cases stoppingLoop env.events m <;> simp
  | false =>
    by_cases hlen : m.length = 0
    · simp [superviseLoop, hlen]
    · simp only [superviseLoop, if_neg hlen]
      cases runningLoop env.events m 0 with
      | finished m' code tr rest =>
        by_cases hlen' : m'.length = 0
        · simp [hlen']
        · simp only [if_neg hlen']
          cases stoppingLoop rest m' <;> simp
      | blocked m' tr => simp

/-- Claim C3: whenever `run_supervise_command` returns `Ok`, the tracked
map has been fully drained, and the reap records match the successful
spawns exactly — each inserted pid (they are pairwise distinct) was removed
exactly once, for every ordering and batching of events.  (When the event
stream runs out with live children the model reports `blocked`, not `Ok`:
the loop keeps waiting rather than exiting.) -/
theorem c3_exactly_once_reap (sup : SuperviseInfo) (env : Env)
    (hinj : ∀ n1 n2 p, env.spawnPid n1 = some p → env.spawnPid n2 = some p → n1 = n2)
    (hnodup : (sup.children.map Prod.fst).Nodup) :
    ∀ c, (run_supervise_command sup env).result = RunResult.ok c →
      (run_supervise_command sup env).children = []
      ∧ (insertedPids (run_supervise_command sup env).trace).Nodup
      ∧ ∀ p, (reapedPids (run_supervise_command sup env).trace).count p
          = (insertedPids (run_supervise_command sup env).trace).count p := by
  by_cases hmode : sup.mode = SuperviseMode.stop_on_failure
  · cases hparse : env.parse with
    | helpExit =>
      have hR : run_supervise_command sup env = ⟨.ok 0, [], []⟩ := by
        simp [run_supervise_command, hmode, hparse]
      rw [hR]
      intro c _
      exact ⟨rfl, List.nodup_nil, fun p => rfl⟩
    | parseError =>
      have hR : run_supervise_command sup env = ⟨.ok 122, [], []⟩ := by
        simp [run_supervise_command, hmode, hparse]
      rw [hR]
      intro c _
      exact ⟨rfl, List.nodup_nil, fun p => rfl⟩
    | parsed =>
      cases hl : launchPhase sup env with
      | err tr0 s msg =>
        have hR : run_supervise_command sup env = ⟨.err msg, tr0, s.1⟩ := by
          simp [run_supervise_command, hmode, hparse, hl]
        rw [hR]
        intro c hc
        simp at hc
      | panicked tr0 s msg =>
        have hR : run_supervise_command sup env = ⟨.panicked msg, tr0, s.1⟩ := by
          simp [run_supervise_command, hmode, hparse, hl]
        rw [hR]
        intro c hc
        simp at hc
      | ok tr0 s =>
        have hR : run_supervise_command sup env =
            ⟨(superviseLoop env s.1 s.2).result,
             tr0 ++ (superviseLoop env s.1 s.2).trace,
             (superviseLoop env s.1 s.2).children⟩ := by
          simp [run_supervise_command, hmode, hparse, hl]
        have hlp := launchPhase_spec sup env hinj hnodup
        rw [hl] at hlp
        simp only [StepRes.traceOf, StepRes.stateOf] at hlp
        obtain ⟨la, lb, lc, ld, le⟩ := hlp
        obtain ⟨si, sres⟩ := superviseLoop_spec env s.1 s.2 la
        rw [hR]
        intro c hc
        obtain ⟨hchild, hcount⟩ := sres c hc
        refine ⟨hchild, ?_, ?_⟩
        · show (insertedPids (tr0 ++ (superviseLoop env s.1 s.2).trace)).Nodup
          rw [insertedPids_append, si]
          simpa using lc
        · intro p
          show (reapedPids (tr0 ++ (superviseLoop env s.1 s.2).trace)).count p
            = (insertedPids (tr0 ++ (superviseLoop env s.1 s.2).trace)).count p
          rw [reapedPids_append, insertedPids_append, si, ld]
          simp only [List.nil_append, List.append_nil]
          exact (hcount p).symm.trans (lb p)
  · have hR : run_supervise_command sup env =
        ⟨.panicked "Only stop-on-failure mode implemented", [], []⟩ := by
      simp [run_supervise_command, hmode]
    rw [hR]
    intro c hc
    simp at hc

/-- Witness for C3 at a concrete run: both host-net children spawn (pids 10
and 11), `a` exits first, the run drains and both pids are reaped exactly
once. -/
theorem c3_witness :
    (run_supervise_command planHostAB envFirstExit).children = []
    ∧ (reapedPids (run_supervise_command planHostAB envFirstExit).trace).count 10
      = (insertedPids (run_supervise_command planHostAB envFirstExit).trace).count 10 :=
  have h := c3_exactly_once_reap planHostAB envFirstExit
    (by
      intro n1 n2 p h1 h2
      simp only [envFirstExit] at h1 h2
      split_ifs at h1 h2 <;> simp_all <;> omega)
    (by decide) 0 (by decide)
  ⟨h.1, h.2.2 10⟩

/-- Claim C9: whenever `run_supervise_command` returns an `Err` (a
topology/namespace failure escalated by `try!`), it does so directly: the
trace contains no reap and no child signal, and the tracked map still holds
exactly the children spawned so far (one entry per successful spawn). -/
theorem c9_error_returns_without_draining (sup : SuperviseInfo) (env : Env)
    (hinj : ∀ n1 n2 p, env.spawnPid n1 = some p → env.spawnPid n2 = some p → n1 = n2)
    (hnodup : (sup.children.map Prod.fst).Nodup) :
    ∀ msg, (run_supervise_command sup env).result = RunResult.err msg →
      reapedPids (run_supervise_command sup env).trace = []
      ∧ (∀ a ∈ (run_supervise_command sup env).trace, isSignalChild a = false)
      ∧ ∀ q, keysCount q (run_supervise_command sup env).children
          = (insertedPids (run_supervise_command sup env).trace).count q := by
  by_cases hmode : sup.mode = SuperviseMode.stop_on_failure
  · cases hparse : env.parse with
    | helpExit =>
      have hR : run_supervise_command sup env = ⟨.ok 0, [], []⟩ := by
        simp [run_supervise_command, hmode, hparse]
      rw [hR]
      intro msg hc
      simp at hc
    | parseError =>
      have hR : run_supervise_command sup env = ⟨.ok 122, [], []⟩ := by
        simp [run_supervise_command, hmode, hparse]
      rw [hR]
      intro msg hc
      simp at hc
    | parsed =>
      cases hl : launchPhase sup env with
      | err tr0 s msg0 =>
        have hR : run_supervise_command sup env = ⟨.err msg0, tr0, s.1⟩ := by
          simp [run_supervise_command, hmode, hparse, hl]
        have hlp := launchPhase_spec sup env hinj hnodup
        rw [hl] at hlp
        simp only [StepRes.traceOf, StepRes.stateOf] at hlp
        obtain ⟨la, lb, lc, ld, le⟩ := hlp
        rw [hR]
        intro msg _
        exact ⟨ld, le, lb⟩
      | panicked tr0 s msg0 =>
        have hR : run_supervise_command sup env = ⟨.panicked msg0, tr0, s.1⟩ := by
          simp [run_supervise_command, hmode, hparse, hl]
        rw [hR]
        intro msg hc
        simp at hc
      | ok tr0 s =>
        have hR : run_supervise_command sup env =
            ⟨(superviseLoop env s.1 s.2).result,
             tr0 ++ (superviseLoop env s.1 s.2).trace,
             (superviseLoop env s.1 s.2).children⟩ := by
          simp [run_supervise_command, hmode, hparse, hl]
        rw [hR]
        intro msg hc
        exact absurd hc (superviseLoop_result_ne_err env s.1 s.2 msg)
  · have hR : run_supervise_command sup env =
        ⟨.panicked "Only stop-on-failure mode implemented", [], []⟩ := by
      simp [run_supervise_command, hmode]
    rw [hR]
    intro msg hc
    simp at hc

/-- Witness for C9 at a concrete run: the host child `h` has spawned as
pid 7 when the tmpfs mount fails; the error is returned with no reap, no
signal, and pid 7 still tracked. -/
theorem c9_witness :
    reapedPids (run_supervise_command planMixed envMixedTmpfsFail).trace = []
    ∧ keysCount 7 (run_supervise_command planMixed envMixedTmpfsFail).children
      = (insertedPids (run_supervise_command planMixed envMixedTmpfsFail).trace).count 7 :=
  have h := c9_error_returns_without_draining planMixed envMixedTmpfsFail
    (by
      intro n1 n2 p h1 h2
      simp only [envMixedTmpfsFail] at h1 h2
      split_ifs at h1 h2 <;> simp_all <;> omega)
    (by decide) "mount tmpfs failed" (by decide)
  ⟨h.1, h.2.2 7⟩

/-- Claim C5: with at least one networked (or bridge) child and the gateway
namespace not set up, the run fails with the configuration error right
after the build loop — its whole trace is the container builds, so no child
(host-net ones included) has been spawned and no topology state touched. -/
theorem c5_missing_netns_config_error (sup : SuperviseInfo) (env : Env)
    (hmode : sup.mode = SuperviseMode.stop_on_failure)
    (hparse : env.parse = ParseResult.parsed)
    (hbuild : ∀ c, env.buildOk c = true)
    (hnet : (classify sup.children).netns ≠ [])
    (hsetup : env.netnsSetUp = false) :
    run_supervise_command sup env =
      ⟨RunResult.err netnsNotSetUpMsg,
       (buildContainers env (sup.children.map (fun c => c.2.get_container)) []).1, []⟩
    ∧ spawnAttemptNames
        (buildContainers env (sup.children.map (fun c => c.2.get_container)) []).1 = [] := by
  have hb2 := buildContainers_ok env hbuild
    (sup.children.map (fun c => c.2.get_container)) []
  have hlen : (((classify sup.children).netns.length != 0) : Bool) = true := by
    rw [bne_iff_ne]
    intro h0
    exact hnet (List.length_eq_zero.mp h0)
  have hcond : (((classify sup.children).netns.length != 0) && !env.netnsSetUp) = true := by
    rw [hlen, hsetup]
    rfl
  have hlaunch : launchPhase sup env =
      .err (buildContainers env (sup.children.map (fun c => c.2.get_container)) []).1
        ([], false) netnsNotSetUpMsg := by
    simp [launchPhase, hb2, hcond]
  constructor
  · simp [run_supervise_command, hmode, hparse, hlaunch]
  · exact (buildContainers_props env
      (sup.children.map (fun c => c.2.get_container)) []).2.2.1

/-- Witness for C5: the plan with networked child `a` and host child `h`,
gateway namespace not set up — the run aborts with the configuration error
and an empty spawn list. -/
theorem c5_witness :
    run_supervise_command planMixed envNoNetns =
      ⟨RunResult.err netnsNotSetUpMsg,
       (buildContainers envNoNetns
         (planMixed.children.map (fun c => c.2.get_container)) []).1, []⟩
    ∧ spawnAttemptNames
        (buildContainers envNoNetns
          (planMixed.children.map (fun c => c.2.get_container)) []).1 = [] :=
  c5_missing_netns_config_error planMixed envNoNetns rfl rfl (fun _ => rfl)
    (by decide) rfl

/-- Claim C6: once the launch phase is reached (arguments parse, builds
succeed, the gateway check passes), the spawn attempts of the run start with
exactly the host-net children, in plan iteration order — every host-net
child is attempted even if earlier spawns fail. -/
theorem c6_host_children_all_attempted (sup : SuperviseInfo) (env : Env)
    (hmode : sup.mode = SuperviseMode.stop_on_failure)
    (hparse : env.parse = ParseResult.parsed)
    (hbuild : ∀ c, env.buildOk c = true)
    (hns : (classify sup.children).netns = [] ∨ env.netnsSetUp = true) :
    (spawnAttemptNames (run_supervise_command sup env).trace).take
        (classify sup.children).hostNet.length
      = (classify sup.children).hostNet := by
  have hb2 := buildContainers_ok env hbuild
    (sup.children.map (fun c => c.2.get_container)) []
  have hcond : (((classify sup.children).netns.length != 0) && !env.netnsSetUp) = false := by
    rcases hns with h | h
    · simp [h]
    · simp [h]
  have hlaunch : launchPhase sup env =
      (netnsPhase sup env (classify sup.children)
        (spawnHostGo env (classify sup.children).hostNet [] false).2.1
        (spawnHostGo env (classify sup.children).hostNet [] false).2.2).addTrace
        ((buildContainers env (sup.children.map (fun c => c.2.get_container)) []).1 ++
         (spawnHostGo env (classify sup.children).hostNet [] false).1) := by
    simp [launchPhase, hb2, hcond]
  obtain ⟨suf, hsuf⟩ : ∃ suf, (run_supervise_command sup env).trace =
      ((buildContainers env (sup.children.map (fun c => c.2.get_container)) []).1 ++
       (spawnHostGo env (classify sup.children).hostNet [] false).1) ++ suf := by
    cases hnp : netnsPhase sup env (classify sup.children)
        (spawnHostGo env (classify sup.children).hostNet [] false).2.1
        (spawnHostGo env (classify sup.children).hostNet [] false).2.2 with
    | err tr s msg =>
      refine ⟨tr, ?_⟩
      simp [run_supervise_command, hmode, hparse, hlaunch, hnp, StepRes.addTrace]
    | panicked tr s msg =>
      refine ⟨tr, ?_⟩
      simp [run_supervise_command, hmode, hparse, hlaunch, hnp, StepRes.addTrace]
    | ok tr s =>
      refine ⟨tr ++ (superviseLoop env s.1 s.2).trace, ?_⟩
      simp [run_supervise_command, hmode, hparse, hlaunch, hnp, StepRes.addTrace,
        List.append_assoc]
  rw [hsuf, spawnAttemptNames_append, spawnAttemptNames_append,
    (buildContainers_props env (sup.children.map (fun c => c.2.get_container)) []).2.2.1,
    spawnHostGo_trace env (classify sup.children).hostNet [] false,
    spawnAttemptNames_map_spawn]
  simp only [List.nil_append]
  exact List.take_left _ _

/-- Witness for C6: with child `a` failing to spawn and `b` spawning, both
host-net children are still attempted, in order. -/
theorem c6_witness :
    (spawnAttemptNames (run_supervise_command planHostAB envSpawnFail).trace).take
        (classify planHostAB.children).hostNet.length
      = (classify planHostAB.children).hostNet :=
  c6_host_children_all_attempted planHostAB envSpawnFail rfl rfl (fun _ => rfl)
    (Or.inl (by decide))

/-- Once a covering action has been seen, `coveredBy` is satisfied. -/
theorem coveredBy_true_seen (p q : Action → Bool) :
    ∀ tr : List Action, coveredBy p q tr true = true := by
  intro tr
  induction tr with
  | nil => rfl
  | cons a rest ih => simp [coveredBy, ih]

/-- `coveredBy` is monotone in the seen flag. -/
theorem coveredBy_mono (p q : Action → Bool) :
    ∀ (tr : List Action) (s b : Bool),
    coveredBy p q tr s = true → coveredBy p q tr (s || b) = true := by
  intro tr
  induction tr with
  | nil => intro s b _; rfl
  | cons a rest ih =>
    intro s b h
    simp only [coveredBy, Bool.and_eq_true] at h ⊢
    obtain ⟨h1, h2⟩ := h
    constructor
    · cases hq : q a <;> cases s <;> cases b <;> simp_all
    · have h3 := ih (s || p a) b h2
      have heq : (s || p a || b) = (s || b || p a) := by
        cases s <;> cases b <;> cases p a <;> rfl
      rw [heq] at h3
      exact h3

/-- Actions that never satisfy `q` can be prepended without breaking
`coveredBy`. -/
theorem coveredBy_append_noq (p q : Action → Bool) :
    ∀ (xs ys : List Action) (s : Bool),
    (∀ a ∈ xs, q a = false) → coveredBy p q ys s = true →
    coveredBy p q (xs ++ ys) s = true := by
  intro xs
  induction xs with
  | nil => intro ys s _ h; exact h
  | cons a rest ih =>
    intro ys s hq h
    have hqa : q a = false := hq a (List.mem_cons_self a rest)
    simp only [List.cons_append, coveredBy, hqa, Bool.not_false, Bool.true_or,
      Bool.true_and]
    exact ih ys (s || p a) (fun b hb => hq b (List.mem_cons_of_mem a hb))
      (coveredBy_mono p q ys s (p a) h)

/-- Inverting `addTrace` on a successful step result. -/
theorem StepRes_addTrace_eq_ok {σ : Type} {t : List Action} {r : StepRes σ}
    {tr : List Action} {s : σ} (h : r.addTrace t = StepRes.ok tr s) :
    ∃ tr0, r = StepRes.ok tr0 s ∧ tr = t ++ tr0 := by
  cases r with
  | ok tr0 s0 =>
    simp only [StepRes.addTrace, StepRes.ok.injEq] at h
    exact ⟨tr0, by rw [h.2], h.1.symm⟩
  | err tr0 s0 msg => simp [StepRes.addTrace] at h
  | panicked tr0 s0 msg => simp [StepRes.addTrace] at h

/-- In the namespaced spawning loop, every networked (non-bridge) child has
its net+uts namespaces created strictly before its own spawn attempt. -/
theorem spawnNetns_setup_before_spawn (sup : SuperviseInfo) (env : Env) :
    ∀ (names : List String) (m : List (Nat × String)) (er : Bool)
      (tr : List Action) (s : List (Nat × String) × Bool),
    spawnNetnsChildren sup env names m er = .ok tr s →
    ∀ n c w, sup.children.lookup n = some (ChildCommand.cmd c (some w)) →
    coveredBy (isSetupNsOf n) (isSpawnOf n) tr false = true := by
  intro names
  induction names with
  | nil =>
    intro m er tr s h n c w _
    simp only [spawnNetnsChildren, StepRes.ok.injEq] at h
    rw [← h.1]
    rfl
  | cons name rest ih =>
    intro m er tr s h n c w hlk
    cases hlk0 : sup.children.lookup name with
    | none => simp [spawnNetnsChildren, hlk0] at h
    | some child =>
      cases hbr : env.setBridgeNsOk name with
      | false => simp [spawnNetnsChildren, hlk0, hbr] at h
      | true =>
        cases child with
        | bridgeCmd c0 =>
          cases hp : env.spawnPid name with
          | some pid =>
            simp only [spawnNetnsChildren, hlk0, hbr, hp, Bool.not_true,
              Bool.false_eq_true, if_false] at h
            obtain ⟨tr0, hrec, htr⟩ := StepRes_addTrace_eq_ok h
            subst htr
            by_cases hnn : name = n
            · subst hnn
              rw [hlk0] at hlk
              simp at hlk
            · apply coveredBy_append_noq
              · intro a ha
                fin_cases ha
                · rfl
                · simp [isSpawnOf, hnn]
              · exact ih (insertChild pid name m) er tr0 s hrec n c w hlk
          | none =>
            simp only [spawnNetnsChildren, hlk0, hbr, hp, Bool.not_true,
              Bool.false_eq_true, if_false] at h
            obtain ⟨tr0, hrec, htr⟩ := StepRes_addTrace_eq_ok h
            subst htr
            by_cases hnn : name = n
            · subst hnn
              rw [hlk0] at hlk
              simp at hlk
            · apply coveredBy_append_noq
              · intro a ha
                fin_cases ha
                · rfl
                · simp [isSpawnOf, hnn]
              · exact ih m true tr0 s hrec n c w hlk
        | cmd c0 netw =>
          cases netw with
          | none => simp [spawnNetnsChildren, hlk0, hbr] at h
          | some nw =>
            cases hsc : env.setupContainerOk name with
            | false => simp [spawnNetnsChildren, hlk0, hbr, hsc] at h
            | true =>
              cases hne2 : env.setNetNsOk name with
              | false => simp [spawnNetnsChildren, hlk0, hbr, hsc, hne2] at h
              | true =>
                cases hut : env.setUtsNsOk name with
                | false => simp [spawnNetnsChildren, hlk0, hbr, hsc, hne2, hut] at h
                | true =>
                  cases hp : env.spawnPid name with
                  | some pid =>
                    simp only [spawnNetnsChildren, hlk0, hbr, hsc, hne2, hut, hp,
                      Bool.not_true, Bool.false_eq_true, if_false] at h
                    obtain ⟨tr0, hrec, htr⟩ := StepRes_addTrace_eq_ok h
                    subst htr
                    by_cases hnn : name = n
                    · subst hnn
                      simp [coveredBy, isSetupNsOf, isSpawnOf, coveredBy_true_seen]
                    · apply coveredBy_append_noq
                      · intro a ha
                        fin_cases ha
                        · rfl
                        · rfl
                        · rfl
                        · rfl
                        · simp [isSpawnOf, hnn]
                      · exact ih (insertChild pid name m) er tr0 s hrec n c w hlk
                  | none =>
                    simp only [spawnNetnsChildren, hlk0, hbr, hsc, hne2, hut, hp,
                      Bool.not_true, Bool.false_eq_true, if_false] at h
                    obtain ⟨tr0, hrec, htr⟩ := StepRes_addTrace_eq_ok h
                    subst htr
                    by_cases hnn : name = n
                    · subst hnn
                      simp [coveredBy, isSetupNsOf, isSpawnOf, coveredBy_true_seen]
                    · apply coveredBy_append_noq
                      · intro a ha
                        fin_cases ha
                        · rfl
                        · rfl
                        · rfl
                        · rfl
                        · simp [isSpawnOf, hnn]
                      · exact ih m true tr0 s hrec n c w hlk

/-- When the namespaced phase completes successfully (and there was at
least one namespaced or bridge child), its very last action is the final
re-attachment of the supervisor to the bridge namespace. -/
theorem netnsPhase_ok_ends_with_bridge (sup : SuperviseInfo) (env : Env)
    (cls : Classified) (m : List (Nat × String)) (er : Bool)
    (tr : List Action) (s : List (Nat × String) × Bool)
    (hne : cls.netns ≠ [])
    (h : netnsPhase sup env cls m er = .ok tr s) :
    tr.getLast? = some (Action.setNs "bridge") := by
  have hlen : ¬cls.netns.length = 0 := fun h0 => hne (List.length_eq_zero.mp h0)
  cases hdc : (!env.nsdirExists && !env.createDirOk) with
  | true => simp [netnsPhase, if_neg hlen, hne, hdc] at h
  | false =>
    cases hjg : env.joinGatewayOk with
    | false => simp [netnsPhase, if_neg hlen, hne, hdc, hjg] at h
    | true =>
      cases hum : env.unshareMountOk with
      | false => simp [netnsPhase, if_neg hlen, hne, hdc, hjg, hum] at h
      | true =>
        cases hmt : env.mountTmpfsOk with
        | false => simp [netnsPhase, if_neg hlen, hne, hdc, hjg, hum, hmt] at h
        | true =>
          cases hsb : env.setupBridgeIp with
          | none => simp [netnsPhase, if_neg hlen, hne, hdc, hjg, hum, hmt, hsb] at h
          | some ip =>
            cases hsf : env.startForwardingOk with
            | false => simp [netnsPhase, if_neg hlen, hne, hdc, hjg, hum, hmt, hsb, hsf] at h
            | true =>
              cases hsp : spawnNetnsChildren sup env cls.netns m er with
              | err tr1 s1 msg =>
                simp [netnsPhase, if_neg hlen, hne, hdc, hjg, hum, hmt, hsb, hsf, hsp] at h
              | panicked tr1 s1 msg =>
                simp [netnsPhase, if_neg hlen, hne, hdc, hjg, hum, hmt, hsb, hsf, hsp] at h
              | ok tr1 s1 =>
                cases hfin : env.setBridgeNsFinalOk with
                | false =>
                  simp [netnsPhase, if_neg hlen, hne, hdc, hjg, hum, hmt, hsb, hsf, hsp,
                    hfin] at h
                | true =>
                  simp only [netnsPhase, if_neg hlen, hdc, hjg, hum, hmt, hsb, hsf,
                    hsp, hfin, Bool.not_true, Bool.not_false, if_false, if_true,
                    Bool.false_eq_true, StepRes.ok.injEq] at h
                  rw [← h.1]
                  exact List.getLast?_concat _

/-- Claim C4 (amended): namespace creation interleaves with spawning — each
networked child's own net+uts namespaces are created before that child's
spawn attempt (not all namespaces before all spawns), and on success the
namespaced phase ends by re-attaching the supervisor to the bridge
namespace, after every per-child namespace creation and spawn. -/
theorem c4_setup_per_child_and_final_reattach :
    (∀ (sup : SuperviseInfo) (env : Env) (names : List String)
       (m : List (Nat × String)) (er : Bool) (tr : List Action)
       (s : List (Nat × String) × Bool),
       spawnNetnsChildren sup env names m er = .ok tr s →
       ∀ n c w, sup.children.lookup n = some (ChildCommand.cmd c (some w)) →
       coveredBy (isSetupNsOf n) (isSpawnOf n) tr false = true)
    ∧ (∀ (sup : SuperviseInfo) (env : Env) (cls : Classified)
         (m : List (Nat × String)) (er : Bool) (tr : List Action)
         (s : List (Nat × String) × Bool),
         cls.netns ≠ [] →
         netnsPhase sup env cls m er = .ok tr s →
         tr.getLast? = some (Action.setNs "bridge")) :=
  ⟨fun sup env names m er tr s h n c w hlk =>
    spawnNetns_setup_before_spawn sup env names m er tr s h n c w hlk,
   fun sup env cls m er tr s hne h =>
    netnsPhase_ok_ends_with_bridge sup env cls m er tr s hne h⟩

/-- Witness for the amended C4 at the concrete two-networked-children plan:
child `a`'s namespaces are created before `a`'s spawn, and the namespaced
phase's final action is the bridge re-attachment. -/
theorem c4_witness :
    coveredBy (isSetupNsOf "a") (isSpawnOf "a")
      [Action.setNs "bridge", Action.setupContainerNs "a" "2" "a",
       Action.setNs "net.2", Action.setNs "uts.2",
       Action.spawnAttempt "a" (some 10), Action.setNs "bridge",
       Action.setupContainerNs "b" "3" "b", Action.setNs "net.3",
       Action.setNs "uts.3", Action.spawnAttempt "b" (some 11)] false = true
    ∧ ([Action.joinGateway, Action.unshareMount, Action.mountTmpfs,
        Action.setupBridge, Action.startForwarding, Action.setNs "bridge",
        Action.setupContainerNs "a" "2" "a", Action.setNs "net.2",
        Action.setNs "uts.2", Action.spawnAttempt "a" (some 10),
        Action.setNs "bridge", Action.setupContainerNs "b" "3" "b",
        Action.setNs "net.3", Action.setNs "uts.3",
        Action.spawnAttempt "b" (some 11),
        Action.setNs "bridge"] : List Action).getLast?
      = some (Action.setNs "bridge") :=
  ⟨c4_setup_per_child_and_final_reattach.1 planNetAB envNetOk
    (classify planNetAB.children).netns [] false
    [Action.setNs "bridge", Action.setupContainerNs "a" "2" "a",
     Action.setNs "net.2", Action.setNs "uts.2",
     Action.spawnAttempt "a" (some 10), Action.setNs "bridge",
     Action.setupContainerNs "b" "3" "b", Action.setNs "net.3",
     Action.setNs "uts.3", Action.spawnAttempt "b" (some 11)]
    ([(10, "a"), (11, "b")], false) (by decide) "a" "c" ⟨"2", none, [(8080, 80)]⟩
    (by decide),
   c4_setup_per_child_and_final_reattach.2 planNetAB envNetOk
    (classify planNetAB.children) [] false
    [Action.joinGateway, Action.unshareMount, Action.mountTmpfs,
     Action.setupBridge, Action.startForwarding, Action.setNs "bridge",
     Action.setupContainerNs "a" "2" "a", Action.setNs "net.2",
     Action.setNs "uts.2", Action.spawnAttempt "a" (some 10),
     Action.setNs "bridge", Action.setupContainerNs "b" "3" "b",
     Action.setNs "net.3", Action.setNs "uts.3",
     Action.spawnAttempt "b" (some 11), Action.setNs "bridge"]
    ([(10, "a"), (11, "b")], false) (by decide) (by decide)⟩

end Vagga
